import Mathlib

/-!
Shallow embedding of the indexer repository.

Source files:
- src/src/models/collections/index.ts
  - class Collections: recalculateCollectionFloorSell, recalculateContractFloorSell,
    recalculateContractTopBuy, revalidateCollectionFloorAsk, revalidateCollectionTopBuy
  - the metadata-index-write-queue worker (attribute indexing) and its helpers
- src/src/api/endpoints/events/get-bid-events/v1.ts (the bid-event cursor feed)

Database rows are modelled as Lean structures, tables as lists of rows, and each
SQL statement as a pure function on a `Db` state.  Addresses (bytea) are modelled
as natural numbers, numeric values as integers, timestamps as naturals.  The
attribute values carried by jobs are strings holding numerals in the TypeScript
code; they are modelled as integers so that the numeric casts of the SQL are
total.  Serial primary keys are modelled with explicit `next...Id` counters.
-/

/-- Range info stored in the `attribute_keys.info` jsonb column for
number-kind keys: `min_range` and `max_range`. -/
structure RangeInfo where
  minRange : Int
  maxRange : Int
deriving DecidableEq

/-- A row of the `tokens` table (the columns used by the two source files). -/
structure TokenRow where
  contract : Nat
  tokenId : Nat
  collectionId : Option String
  name : Option String
  description : Option String
  image : Option String
  media : Option String
  attributes : Option (List String)
  metadataIndexed : Bool
  floorSellId : Option Nat
  floorSellValue : Option Int
  floorSellMaker : Option Nat
  updatedAt : Nat
deriving DecidableEq

/-- A row of the `attribute_keys` table. -/
structure AttributeKeyRow where
  id : Nat
  collectionId : String
  key : String
  kind : String
  rank : Option Nat
  info : Option RangeInfo
  attributeCount : Nat
deriving DecidableEq

/-- A row of the `attributes` table. -/
structure AttributeRow where
  id : Nat
  attributeKeyId : Nat
  value : Int
  collectionId : String
  kind : String
  key : String
  tokenCount : Nat
  sampleImages : List String
deriving DecidableEq

/-- A row of the `token_attributes` table. -/
structure TokenAttributeRow where
  contract : Nat
  tokenId : Nat
  attributeId : Nat
  collectionId : String
  key : String
  value : Int
deriving DecidableEq

/-- A row of the `collections` table (the floor-sell cache columns). -/
structure CollectionRow where
  id : String
  floorSellId : Option Nat
  floorSellValue : Option Int
  floorSellMaker : Option Nat
  floorSellSourceIdInt : Option Nat
  floorSellValidBetween : Option String
  updatedAt : Nat
deriving DecidableEq

/-- A row of the `orders` table (the columns used by the source). -/
structure OrderRow where
  id : Nat
  tokenSetId : String
  side : String
  fillabilityStatus : String
  approvalStatus : String
  taker : Option Nat
  value : Int
  feeBps : Int
  sourceIdInt : Nat
  validBetween : String
deriving DecidableEq

/-- A row of the `token_sets_tokens` table. -/
structure TokenSetsTokenRow where
  tokenSetId : String
  contract : Nat
  tokenId : Nat
deriving DecidableEq

/-- A row of the `token_sets` table (the columns used by revalidateCollectionTopBuy). -/
structure TokenSetRow where
  id : String
  collectionId : Option String
  attributeId : Option Nat
deriving DecidableEq

/-- The database state seen by the two source files. -/
structure Db where
  tokens : List TokenRow
  attributeKeys : List AttributeKeyRow
  attributes : List AttributeRow
  tokenAttributes : List TokenAttributeRow
  collections : List CollectionRow
  orders : List OrderRow
  tokenSetsTokens : List TokenSetsTokenRow
  tokenSets : List TokenSetRow
  nextAttributeKeyId : Nat
  nextAttributeId : Nat
deriving DecidableEq

/-- One attribute of a metadata-indexing job payload. -/
structure JobAttribute where
  key : String
  value : Int
  kind : String
  rank : Option Nat
deriving DecidableEq

/-- The payload of a metadata-indexing job (type TokenMetadataInfo in the source). -/
structure TokenMetadataInfo where
  collection : String
  contract : Nat
  tokenId : Nat
  name : Option String
  description : Option String
  imageUrl : Option String
  mediaUrl : Option String
  attributes : List JobAttribute
deriving DecidableEq

/-- Recount jobs scheduled by the worker for attributes removed from a token
(resyncAttributeKeyCounts.addToQueue and resyncAttributeValueCounts.addToQueue). -/
inductive RecountJob where
  | keyCount (collection : String) (key : String)
  | valueCount (collection : String) (key : String) (value : Int)
deriving DecidableEq

/-- Errors thrown by the metadata-index-write-queue worker. -/
inductive WorkerErr where
  | attributeKeyError (key : String)
  | attributeError (value : Int)
deriving DecidableEq

/-- The JavaScript runtime error raised by dereferencing a member of null. -/
inductive JsError where
  | nullDeref
deriving DecidableEq

/-- A job pushed to the order-updates-by-id queue (orderUpdatesById.addToQueue). -/
structure OrderUpdateJob where
  context : String
  id : Option Nat
  tokenSetId : Option String
  side : Option String
deriving DecidableEq

/-! ## The metadata-index-write-queue worker (src/src/models/collections/index.ts) -/

/-- Widening of the numeric range stored in `attribute_keys.info`, mirroring the
jsonb CASE expressions of the UPDATE: the new min is the old min unless it
exceeds the value, symmetrically for the max.  A NULL info stays NULL because
`NULL || jsonb_object(...)` is NULL. -/
def widenInfo : Option RangeInfo → Int → Option RangeInfo
  | none, _ => none
  | some i, v =>
    some { minRange := if i.minRange > v then v else i.minRange,
           maxRange := if i.maxRange < v then v else i.maxRange }

/-- Effect of the `UPDATE attribute_keys SET info = CASE WHEN kind = 'number' ...`
statement on one matching row: number-kind rows get their range widened, any
other kind gets info set to NULL (a CASE with no ELSE yields NULL). -/
def keyUpdatedRow (r : AttributeKeyRow) (v : Int) : AttributeKeyRow :=
  { r with info := if r.kind == "number" then widenInfo r.info v else none }

/-- Row predicate of `WHERE collection_id = $/collection/ AND key = $/key/`. -/
def kMatch (c k : String) (r : AttributeKeyRow) : Bool :=
  r.collectionId == c && r.key == k

/-- Lookup of an attribute-key id by (collection, key); the unique constraint
backing ON CONFLICT makes the first match the only match. -/
def attributeKeySelect (db : Db) (c k : String) : Option Nat :=
  (db.attributeKeys.find? (kMatch c k)).map (fun r => r.id)

/-- The conditional update  `UPDATE attribute_keys SET info = ... WHERE
collection_id = ... AND key = ... RETURNING id`: all matching rows are updated
and the returned id (row ids are not changed by the update) is the matching
row id, or none when no row matched. -/
def attributeKeyUpdate (db : Db) (c k : String) (v : Int) : Option Nat × Db :=
  (attributeKeySelect db c k,
   { db with attributeKeys :=
       db.attributeKeys.map (fun r => if kMatch c k r then keyUpdatedRow r v else r) })

/-- The JavaScript `rank || null`: an absent or zero (falsy) rank is stored as NULL. -/
def rankOrNull : Option Nat → Option Nat
  | none => none
  | some r => if r == 0 then none else some r

/-- The `INSERT INTO attribute_keys ... ON CONFLICT DO NOTHING RETURNING id`
statement: on conflict with an existing (collection_id, key) row nothing is
inserted and no id is returned; otherwise a fresh row is appended (number-kind
keys start with range {value, value}). -/
def attributeKeyInsert (db : Db) (c k kind : String) (rank : Option Nat) (v : Int) :
    Option Nat × Db :=
  if db.attributeKeys.any (kMatch c k) then (none, db)
  else
    let newRow : AttributeKeyRow :=
      { id := db.nextAttributeKeyId, collectionId := c, key := k, kind := kind,
        rank := rankOrNull rank,
        info := if kind == "number" then some { minRange := v, maxRange := v } else none,
        attributeCount := 0 }
    (some newRow.id,
     { db with attributeKeys := db.attributeKeys ++ [newRow],
               nextAttributeKeyId := db.nextAttributeKeyId + 1 })

/-- Resolution of an AttributeKey id by the worker, with an explicit interleaving
point: the conditional update runs against the state the worker sees; before the
conflict-ignoring insert runs, concurrently committed work (`interleave`) may
change the state.  If neither statement returns an id the worker throws
`Could not fetch/save attribute key` immediately: there is no further lookup. -/
def resolveAttributeKeyRaced (db : Db) (interleave : Db → Db) (c k kind : String)
    (rank : Option Nat) (v : Int) : Except WorkerErr (Nat × Db) :=
  match attributeKeyUpdate db c k v with
  | (some id, db1) => .ok (id, db1)
  | (none, db1) =>
    match attributeKeyInsert (interleave db1) c k kind rank v with
    | (some id, db2) => .ok (id, db2)
    | (none, _) => .error (.attributeKeyError k)

/-- Sequential (no concurrent writer) attribute-key resolution. -/
def resolveAttributeKey (db : Db) (c k kind : String) (rank : Option Nat) (v : Int) :
    Except WorkerErr (Nat × Db) :=
  resolveAttributeKeyRaced db (fun d => d) c k kind rank v

/-- Row predicate of `WHERE attribute_key_id = ... AND value = ...`. -/
def aMatch (kid : Nat) (v : Int) (r : AttributeRow) : Bool :=
  r.attributeKeyId == kid && r.value == v

/-- The `SELECT id FROM attributes WHERE attribute_key_id = ... AND value = ...`
lookup (succeeds in the common case). -/
def attributeLookup (db : Db) (kid : Nat) (v : Int) : Option Nat :=
  (db.attributes.find? (aMatch kid v)).map (fun r => r.id)

/-- The CTE statement inserting an `attributes` row with ON CONFLICT DO NOTHING
and incrementing `attribute_keys.attribute_count` by the number of rows the
insert actually created (COUNT(*) over the CTE): 0 on conflict, 1 otherwise.
The returned id is the scalar subquery `(SELECT x.id FROM x)` of the RETURNING
clause of the outer UPDATE, so it is NULL when the insert conflicted, and no row
is returned at all when the outer UPDATE matched no attribute_keys row. -/
def attributeInsertCte (db : Db) (kid : Nat) (v : Int) (c kind k : String) :
    Option Nat × Db :=
  let conflict := db.attributes.any (aMatch kid v)
  let inserted : Nat := if conflict then 0 else 1
  let newId := db.nextAttributeId
  let db1 :=
    if conflict then db
    else
      { db with
          attributes := db.attributes ++
            [{ id := newId, attributeKeyId := kid, value := v, collectionId := c,
               kind := kind, key := k, tokenCount := 0, sampleImages := [] }],
          nextAttributeId := db.nextAttributeId + 1 }
  let db2 :=
    { db1 with attributeKeys := db1.attributeKeys.map (fun r =>
        if r.id == kid then { r with attributeCount := r.attributeCount + inserted } else r) }
  let ret :=
    if db1.attributeKeys.any (fun r => r.id == kid) then
      (if conflict then none else some newId)
    else none
  (ret, db2)

/-- The sample_images CASE expression: prepend a new image while fewer than 4
entries are present; at 4 or more entries evict the 4th slot (array_remove of
sample_images[4]) before prepending; an image already present leaves the array
unchanged.  A NULL array is modelled as the empty list. -/
def updateSampleImages (l : List String) (img : String) : List String :=
  if l.length < 4 && !(l.contains img) then img :: l
  else if 4 ≤ l.length && !(l.contains img) then
    match l[3]? with
    | some x => img :: l.filter (fun y => y != x)
    | none => img :: l
  else l

/-- Conflict test of the token_attributes insert (unique on contract, token_id,
attribute_id). -/
def tokenAttrConflict (db : Db) (contract tokenId attrId : Nat) : Bool :=
  db.tokenAttributes.any (fun r =>
    r.contract == contract && r.tokenId == tokenId && r.attributeId == attrId)

/-- The CTE statement linking a token to an attribute: insert the
`token_attributes` row with ON CONFLICT DO NOTHING, then update the `attributes`
row, incrementing token_count by the number of rows actually inserted (0 or 1)
and, when the job carries an image URL, applying the sample_images CASE. -/
def linkTokenAttribute (db : Db) (job : TokenMetadataInfo) (a : JobAttribute)
    (attrId : Nat) : Db :=
  let conflict := tokenAttrConflict db job.contract job.tokenId attrId
  let inserted : Nat := if conflict then 0 else 1
  let db1 :=
    if conflict then db
    else
      { db with tokenAttributes := db.tokenAttributes ++
          [{ contract := job.contract, tokenId := job.tokenId, attributeId := attrId,
             collectionId := job.collection, key := a.key, value := a.value }] }
  { db1 with attributes := db1.attributes.map (fun r =>
      if r.id == attrId then
        { r with tokenCount := r.tokenCount + inserted,
                 sampleImages :=
                   match job.imageUrl with
                   | some img => updateSampleImages r.sampleImages img
                   | none => r.sampleImages }
      else r) }

/-- Processing of one job attribute: resolve the attribute key, look the
attribute up (insert it when absent), then link it to the token; failures to
resolve an id throw and abort the job. -/
def processAttr (db : Db) (job : TokenMetadataInfo) (a : JobAttribute) :
    Except WorkerErr Db :=
  match resolveAttributeKey db job.collection a.key a.kind a.rank a.value with
  | .error e => .error e
  | .ok (kid, db1) =>
    match attributeLookup db1 kid a.value with
    | some aid => .ok (linkTokenAttribute db1 job a aid)
    | none =>
      match attributeInsertCte db1 kid a.value job.collection a.kind a.key with
      | (some aid, db2) => .ok (linkTokenAttribute db2 job a aid)
      | (none, _) => .error (.attributeError a.value)

/-- Sequential processing of the job attribute list, aborting on the first error. -/
def processAttrs (job : TokenMetadataInfo) : Db → List JobAttribute → Except WorkerErr Db
  | db, [] => .ok db
  | db, a :: rest =>
    match processAttr db job a with
    | .error e => .error e
    | .ok db1 => processAttrs job db1 rest

/-- Row predicate for the job token. -/
def tokenMatches (t : TokenRow) (contract tokenId : Nat) : Bool :=
  t.contract == contract && t.tokenId == tokenId

/-- The flattened key-value attribute map cached on the token row: the HSTORE
built by the worker maps each string `key,value` to NULL, and is NULL when the
job has no attributes. -/
def hstoreAttrs (attrs : List JobAttribute) : Option (List String) :=
  if attrs.isEmpty then none
  else some (attrs.map (fun a => a.key ++ "," ++ toString a.value))

/-- The metadata-index-write-queue worker body for one job.  Returns the final
state and the scheduled recount jobs, or the thrown error.  When no token row
matches (contract, tokenId) the job is a no-op success. -/
def processJob (db : Db) (nowT : Nat) (job : TokenMetadataInfo) :
    Except WorkerErr (Db × List RecountJob) :=
  if db.tokens.any (fun t => tokenMatches t job.contract job.tokenId) then
    let db1 := { db with tokens := db.tokens.map (fun t =>
        if tokenMatches t job.contract job.tokenId then
          { t with name := job.name, description := job.description,
                   image := job.imageUrl, media := job.mediaUrl,
                   attributes := hstoreAttrs job.attributes, updatedAt := nowT }
        else t) }
    let removed := db1.tokenAttributes.filter (fun r =>
        r.contract == job.contract && r.tokenId == job.tokenId)
    let recounts := removed.flatMap (fun r =>
        [RecountJob.keyCount job.collection r.key,
         RecountJob.valueCount job.collection r.key r.value])
    let db2 := { db1 with tokenAttributes := db1.tokenAttributes.filter (fun r =>
        !(r.contract == job.contract && r.tokenId == job.tokenId)) }
    match processAttrs job db2 job.attributes with
    | .error e => .error e
    | .ok db3 =>
      let db4 := { db3 with tokens := db3.tokens.map (fun t =>
          if tokenMatches t job.contract job.tokenId && !t.metadataIndexed then
            { t with metadataIndexed := true }
          else t) }
      .ok (db4, recounts)
  else .ok (db, [])

/-! ## Collections (src/src/models/collections/index.ts, class Collections) -/

/-- The tuple selected by the floor subquery of recalculateCollectionFloorSell:
a token of the collection joined through its cached floor_sell_id to the order. -/
structure FloorCandidate where
  floorSellId : Nat
  floorSellValue : Option Int
  floorSellMaker : Option Nat
  sourceIdInt : Nat
  validBetween : String
deriving DecidableEq

/-- Ordering used by `ORDER BY tokens.floor_sell_value` (ascending, NULLS LAST). -/
def optValLt : Option Int → Option Int → Bool
  | some x, some y => x < y
  | some _, none => true
  | none, _ => false

/-- The subquery of recalculateCollectionFloorSell: tokens of the collection
joined to orders on floor_sell_id, ordered by floor_sell_value, LIMIT 1.
The fold keeps the first row among ties, matching a stable order-by. -/
def floorCandidate (db : Db) (c : String) : Option FloorCandidate :=
  let rows := db.tokens.filterMap (fun t =>
    if t.collectionId == some c then
      match t.floorSellId with
      | some oid =>
        (db.orders.find? (fun o => o.id == oid)).map (fun o =>
          { floorSellId := oid, floorSellValue := t.floorSellValue,
            floorSellMaker := t.floorSellMaker, sourceIdInt := o.sourceIdInt,
            validBetween := o.validBetween })
      | none => none
    else none)
  rows.foldl (fun best x =>
    match best with
    | none => some x
    | some b => if optValLt x.floorSellValue b.floorSellValue then some x else some b) none

/-- Collections.recalculateCollectionFloorSell: the UPDATE writes the computed
floor tuple (and updated_at = now()) into the collection row, but only where
`floor_sell_id IS DISTINCT FROM x.floor_sell_id OR floor_sell_value IS DISTINCT
FROM x.floor_sell_value`; with an empty subquery the UPDATE ... FROM affects no
row at all. -/
def recalculateCollectionFloorSell (db : Db) (c : String) (nowT : Nat) : Db :=
  match floorCandidate db c with
  | none => db
  | some x =>
    { db with collections := db.collections.map (fun col =>
        if col.id == c &&
           (col.floorSellId != some x.floorSellId || col.floorSellValue != x.floorSellValue)
        then
          { col with floorSellId := some x.floorSellId,
                     floorSellValue := x.floorSellValue,
                     floorSellMaker := x.floorSellMaker,
                     floorSellSourceIdInt := some x.sourceIdInt,
                     floorSellValidBetween := some x.validBetween,
                     updatedAt := nowT }
        else col) }

/-- An order has an open taker when the taker is the zero address or NULL. -/
def openTaker (o : OrderRow) : Bool :=
  o.taker == some 0 || o.taker == none

/-- The WHERE clause of the revalidateCollectionFloorAsk query: a sell order,
fillable, approved, with an open taker, whose token set contains a token of the
collection. -/
def floorAskMatches (db : Db) (c : String) (o : OrderRow) : Bool :=
  (db.tokenSetsTokens.any (fun tst =>
    tst.tokenSetId == o.tokenSetId &&
    db.tokens.any (fun t =>
      t.contract == tst.contract && t.tokenId == tst.tokenId &&
      t.collectionId == some c))) &&
  o.side == "sell" && o.fillabilityStatus == "fillable" &&
  o.approvalStatus == "approved" && openTaker o

/-- `ORDER BY orders.value, orders.fee_bps` ascending. -/
def askLt (a b : OrderRow) : Bool :=
  a.value < b.value || (a.value == b.value && a.feeBps < b.feeBps)

/-- The LIMIT 1 result of the floor-ask query (first row among ties). -/
def floorAskCandidate (db : Db) (c : String) : Option OrderRow :=
  (db.orders.filter (floorAskMatches db c)).foldl (fun best x =>
    match best with
    | none => some x
    | some b => if askLt x b then some x else some b) none

/-- Collections.revalidateCollectionFloorAsk.  `redb.oneOrNone` yields null when
no order matches, and the code then dereferences `floorAskOrderResult.id`, which
raises a TypeError at runtime; the `else` branch (the documented
"Refresh all tokens?" no-op) is reached only for a returned row with a falsy id. -/
def revalidateCollectionFloorAsk (db : Db) (c : String) (nowT : Nat) :
    Except JsError (List OrderUpdateJob) :=
  match floorAskCandidate db c with
  | none => .error .nullDeref
  | some o =>
    if o.id != 0 then
      .ok [{ context := "revalidate-collection-floor-sell-" ++ toString o.id ++ "-" ++ toString nowT,
             id := some o.id, tokenSetId := none, side := none }]
    else .ok []

/-- The WHERE clause of the revalidateCollectionTopBuy query: a buy order,
fillable, approved, open taker, whose token set is the collection-wide set
(attribute_id IS NULL) of the collection. -/
def topBuyMatches (db : Db) (c : String) (o : OrderRow) : Bool :=
  (db.tokenSets.any (fun ts =>
    ts.id == o.tokenSetId && ts.collectionId == some c && ts.attributeId == none)) &&
  o.side == "buy" && o.fillabilityStatus == "fillable" &&
  o.approvalStatus == "approved" && openTaker o

/-- The LIMIT 1 result of the top-buy query (`ORDER BY orders.value DESC`,
first row among ties). -/
def topBuyCandidate (db : Db) (c : String) : Option OrderRow :=
  (db.orders.filter (topBuyMatches db c)).foldl (fun best x =>
    match best with
    | none => some x
    | some b => if b.value < x.value then some x else some b) none

/-- Collections.revalidateCollectionTopBuy, with the same null-dereference shape
as revalidateCollectionFloorAsk. -/
def revalidateCollectionTopBuy (db : Db) (c : String) (nowT : Nat) :
    Except JsError (List OrderUpdateJob) :=
  match topBuyCandidate db c with
  | none => .error .nullDeref
  | some o =>
    if o.id != 0 then
      .ok [{ context := "revalidate-collection-top-buy-" ++ toString o.id ++ "-" ++ toString nowT,
             id := some o.id, tokenSetId := none, side := none }]
    else .ok []

/-! ## The bid-event cursor feed (src/src/api/endpoints/events/get-bid-events/v1.ts) -/

/-- A row of the append-only `bid_events` table (the columns the handler
selects; only created_at, id and contract take part in filtering and ordering). -/
structure BidEvent where
  id : Nat
  kind : String
  status : String
  contract : Nat
  tokenSetId : String
  orderId : String
  createdAt : Nat
deriving DecidableEq

/-- The validated query parameters of the handler, after the in-code defaulting
of startTimestamp (0) and endTimestamp (9999999999); Joi restricts
sortDirection to "asc" or "desc" (default "desc") and limit to 1..1000. -/
structure BidEventsQuery where
  contract : Option Nat
  startTimestamp : Nat
  endTimestamp : Nat
  sortDirection : String
  limit : Nat
deriving DecidableEq

/-- The composite sort key (created_at, id). -/
def eventKey (e : BidEvent) : Nat × Nat := (e.createdAt, e.id)

/-- Strict lexicographic comparison of (created_at, id) pairs, the SQL row
comparison `(a, b) < (c, d)`. -/
def pairLt (a b : Nat × Nat) : Bool :=
  a.1 < b.1 || (a.1 == b.1 && a.2 < b.2)

/-- Non-strict lexicographic comparison of (created_at, id) pairs. -/
def pairLe (a b : Nat × Nat) : Bool :=
  a.1 < b.1 || (a.1 == b.1 && a.2 ≤ b.2)

/-- The timestamp/contract conditions of the WHERE clause (both timestamp bounds
are inclusive; the contract condition is added only when the filter is present). -/
def matchesFilter (q : BidEventsQuery) (e : BidEvent) : Bool :=
  q.startTimestamp ≤ e.createdAt && e.createdAt ≤ q.endTimestamp &&
  (match q.contract with
   | none => true
   | some c => e.contract == c)

/-- The continuation condition: `(created_at, id) > (cursor)` for asc and
`<` for desc (the code emits ">" exactly when sortDirection is "asc"). -/
def afterCursor (q : BidEventsQuery) (cur : Nat × Nat) (e : BidEvent) : Bool :=
  if q.sortDirection == "asc" then pairLt cur (eventKey e) else pairLt (eventKey e) cur

/-- The ORDER BY relation: ascending (created_at, id) for asc, descending for
desc. -/
def orderLeB (q : BidEventsQuery) (a b : BidEvent) : Bool :=
  if q.sortDirection == "asc" then pairLe (eventKey a) (eventKey b)
  else pairLe (eventKey b) (eventKey a)

/-- Strict version of the ORDER BY relation. -/
def orderLtB (q : BidEventsQuery) (a b : BidEvent) : Bool :=
  if q.sortDirection == "asc" then pairLt (eventKey a) (eventKey b)
  else pairLt (eventKey b) (eventKey a)

/-- The ORDER BY relation as a decidable proposition (for the sort). -/
def orderLeP (q : BidEventsQuery) (a b : BidEvent) : Prop := orderLeB q a b = true

instance (q : BidEventsQuery) : DecidableRel (orderLeP q) :=
  fun a b => Bool.decEq (orderLeB q a b) true

instance (q : BidEventsQuery) : IsTotal BidEvent (orderLeP q) :=
  ⟨fun a b => by
    unfold orderLeP orderLeB pairLe eventKey
    split_ifs <;>
      simp only [Bool.or_eq_true, Bool.and_eq_true, beq_iff_eq, decide_eq_true_eq] <;>
      omega⟩

instance (q : BidEventsQuery) : IsTrans BidEvent (orderLeP q) :=
  ⟨fun a b c h1 h2 => by
    unfold orderLeP orderLeB pairLe eventKey at h1 h2 ⊢
    split_ifs at h1 h2 ⊢ <;>
      simp only [Bool.or_eq_true, Bool.and_eq_true, beq_iff_eq, decide_eq_true_eq]
        at h1 h2 ⊢ <;>
      omega⟩

/-- One page of the handler: apply the filters and the cursor predicate, order
by (created_at, id) in the requested direction, take `limit` rows; the response
carries a continuation (the (created_at, id) of the last row, opaquely encoded
by buildContinuation) exactly when the page holds exactly `limit` rows. -/
def getBidEventsPage (events : List BidEvent) (q : BidEventsQuery)
    (cont : Option (Nat × Nat)) : List BidEvent × Option (Nat × Nat) :=
  let filtered := events.filter (fun e =>
    matchesFilter q e &&
    (match cont with
     | none => true
     | some cur => afterCursor q cur e))
  let sorted := List.insertionSort (orderLeP q) filtered
  let page := sorted.take q.limit
  let nextCont := if page.length == q.limit then page.getLast?.map eventKey else none
  (page, nextCont)

/-- Repeatedly following the continuation, collecting each page together with
the continuation it returned; the fuel bounds the number of requests. -/
def bidEventPagesAux (events : List BidEvent) (q : BidEventsQuery) :
    Nat → Option (Nat × Nat) → List (List BidEvent × Option (Nat × Nat))
  | 0, _ => []
  | fuel + 1, cont =>
    let pr := getBidEventsPage events q cont
    match pr.2 with
    | none => [pr]
    | some c => pr :: bidEventPagesAux events q fuel (some c)

/-- The full page sequence obtained by starting from an empty continuation;
`events.length + 1` requests always suffice. -/
def bidEventPages (events : List BidEvent) (q : BidEventsQuery) :
    List (List BidEvent × Option (Nat × Nat)) :=
  bidEventPagesAux events q (events.length + 1) none

/-! ## Concrete fixtures used by witnesses and counterexamples -/

/-- A database with all tables empty. -/
def emptyDb : Db :=
  { tokens := [], attributeKeys := [], attributes := [], tokenAttributes := [],
    collections := [], orders := [], tokenSetsTokens := [], tokenSets := [],
    nextAttributeKeyId := 1, nextAttributeId := 1 }

/-- A token row of collection c, not yet indexed. -/
def exToken : TokenRow :=
  { contract := 1, tokenId := 1, collectionId := some "c", name := none,
    description := none, image := none, media := none, attributes := none,
    metadataIndexed := false, floorSellId := none, floorSellValue := none,
    floorSellMaker := none, updatedAt := 0 }

/-- A database holding only the token row. -/
def exDb : Db := { emptyDb with tokens := [exToken] }

/-- A metadata job for the token, carrying one string attribute and an image. -/
def exJob : TokenMetadataInfo :=
  { collection := "c", contract := 1, tokenId := 1, name := some "n",
    description := none, imageUrl := some "i", mediaUrl := none,
    attributes := [{ key := "k", value := 7, kind := "string", rank := none }] }

/-- The attribute-key row committed by a concurrent worker in the create-race. -/
def raceKeyRow : AttributeKeyRow :=
  { id := 42, collectionId := "c", key := "k", kind := "string", rank := none,
    info := none, attributeCount := 0 }

/-- The interleaved commit of the concurrent winner of the create-race. -/
def raceCommit : Db → Db :=
  fun db => { db with attributeKeys := db.attributeKeys ++ [raceKeyRow] }

/-! ## Derived state views, invariants and example fixtures used by the
verification layer -/

/-- A collection row whose stored floor matches the computed candidate of exFloorDb. -/
def exCollection : CollectionRow :=
  { id := "c", floorSellId := some 3, floorSellValue := some 100,
    floorSellMaker := some 5, floorSellSourceIdInt := some 2,
    floorSellValidBetween := some "[0,)", updatedAt := 77 }

/-- The order backing the cached token floor. -/
def exFloorOrder : OrderRow :=
  { id := 3, tokenSetId := "ts", side := "sell", fillabilityStatus := "fillable",
    approvalStatus := "approved", taker := none, value := 100, feeBps := 50,
    sourceIdInt := 2, validBetween := "[0,)" }

/-- The token row with its cached floor order. -/
def exFloorToken : TokenRow :=
  { exToken with floorSellId := some 3, floorSellValue := some 100, floorSellMaker := some 5 }

/-- A database in which the token carries floor order 3 at value 100 and the
collection row already stores exactly that floor. -/
def exFloorDb : Db :=
  { emptyDb with
      tokens := [exFloorToken], orders := [exFloorOrder],
      collections := [exCollection] }

/-- A database with a stale non-null floor cache and no token carrying a floor
order. -/
def exStaleDb : Db :=
  { emptyDb with tokens := [exToken], collections := [exCollection] }

/-- An attribute-key row used by the C6 witness. -/
def exKeyRow : AttributeKeyRow :=
  { id := 1, collectionId := "c", key := "k", kind := "string", rank := none,
    info := none, attributeCount := 1 }

/-- An attribute row used by the C6 witness. -/
def exAttrRow : AttributeRow :=
  { id := 1, attributeKeyId := 1, value := 7, collectionId := "c", kind := "string",
    key := "k", tokenCount := 1, sampleImages := ["i"] }

/-- A database holding the key row and attribute row. -/
def exCounterDb : Db :=
  { emptyDb with
      attributeKeys := [exKeyRow], attributes := [exAttrRow],
      nextAttributeKeyId := 2, nextAttributeId := 2 }

/-- The full filtered result set of the feed in ORDER BY order (what the page
query computes before the cursor condition and LIMIT are applied). -/
def sortedFiltered (events : List BidEvent) (q : BidEventsQuery) : List BidEvent :=
  List.insertionSort (orderLeP q) (events.filter (matchesFilter q))

/-- The matching rows still ahead of a cursor, in ORDER BY order. -/
def bidAvail (events : List BidEvent) (q : BidEventsQuery) :
    Option (Nat × Nat) → List BidEvent
  | none => sortedFiltered events q
  | some cur => (sortedFiltered events q).filter (afterCursor q cur)

/-- Three bid events, two of them sharing a created_at timestamp. -/
def exEvents : List BidEvent :=
  [{ id := 1, kind := "new-order", status := "active", contract := 9,
     tokenSetId := "t", orderId := "o1", createdAt := 10 },
   { id := 2, kind := "reprice", status := "active", contract := 9,
     tokenSetId := "t", orderId := "o2", createdAt := 10 },
   { id := 3, kind := "expiry", status := "expired", contract := 8,
     tokenSetId := "t", orderId := "o3", createdAt := 5 }]

/-- A descending two-row-page query with the default timestamp window. -/
def exQuery : BidEventsQuery :=
  { contract := none, startTimestamp := 0, endTimestamp := 9999999999,
    sortDirection := "desc", limit := 2 }

/-- The per-attribute shape of an attributes row: every column except the
token_count counter. -/
def attrShape (r : AttributeRow) :
    Nat × Nat × Int × String × String × String × List String :=
  (r.id, r.attributeKeyId, r.value, r.collectionId, r.kind, r.key, r.sampleImages)

/-- Well-formedness of the serial primary keys: every stored id is below the
corresponding sequence counter. -/
def dbWf (db : Db) : Prop :=
  (∀ r ∈ db.attributeKeys, r.id < db.nextAttributeKeyId) ∧
  (∀ r ∈ db.attributes, r.id < db.nextAttributeId)

/-- The attribute id the worker resolves a job attribute to in a given state:
the key lookup followed by the attribute lookup. -/
def resolvedAttrId (d : Db) (c : String) (a : JobAttribute) : Option Nat :=
  match attributeKeySelect d c a.key with
  | none => none
  | some kid => attributeLookup d kid a.value

/-- Total version of resolvedAttrId (used to state link-list characterizations). -/
def resolveFn (d : Db) (c : String) (a : JobAttribute) : Nat :=
  (resolvedAttrId d c a).getD 0

/-- The token_attributes row inserted for a job attribute. -/
def mkLinkRow (job : TokenMetadataInfo) (a : JobAttribute) (aid : Nat) :
    TokenAttributeRow :=
  { contract := job.contract, tokenId := job.tokenId, attributeId := aid,
    collectionId := job.collection, key := a.key, value := a.value }

/-- The conflict test of the token_attributes insert over a plain list. -/
def linkConflict (l : List TokenAttributeRow) (contract tokenId attrId : Nat) : Bool :=
  l.any (fun r =>
    r.contract == contract && r.tokenId == tokenId && r.attributeId == attrId)

/-- One conflict-ignoring link insert over a plain list. -/
def linkStep (job : TokenMetadataInfo) (a : JobAttribute) (aid : Nat)
    (l : List TokenAttributeRow) : List TokenAttributeRow :=
  if linkConflict l job.contract job.tokenId aid then l else l ++ [mkLinkRow job a aid]

/-- The link rows produced by processing a list of job attributes with a fixed
resolution function. -/
def linkFold (job : TokenMetadataInfo) (resolve : JobAttribute → Nat) :
    List TokenAttributeRow → List JobAttribute → List TokenAttributeRow
  | l, [] => l
  | l, a :: rest => linkFold job resolve (linkStep job a (resolve a) l) rest

/-- Readiness of a job attribute in a state: the key row exists and already
absorbs the attribute value (so the conditional update of a replay changes
nothing), the attribute row exists, and every row carrying its id already holds
the job image among its sample images (so the sample-image update of a replay
changes nothing). -/
def attrReady (d : Db) (job : TokenMetadataInfo) (a : JobAttribute) : Prop :=
  (∀ r ∈ d.attributeKeys, kMatch job.collection a.key r = true →
     keyUpdatedRow r a.value = r) ∧
  (∃ kid, attributeKeySelect d job.collection a.key = some kid ∧
    ∃ aid, attributeLookup d kid a.value = some aid ∧
      (∀ ar ∈ d.attributes, ar.id = aid →
        ∀ im, job.imageUrl = some im → im ∈ ar.sampleImages))

/-- The token update stage of processJob as a named state transformer. -/
def jobTokensUpdated (db : Db) (nowT : Nat) (job : TokenMetadataInfo) : Db :=
  { db with tokens := db.tokens.map (fun t =>
      if tokenMatches t job.contract job.tokenId then
        { t with name := job.name, description := job.description,
                 image := job.imageUrl, media := job.mediaUrl,
                 attributes := hstoreAttrs job.attributes, updatedAt := nowT }
      else t) }

/-- The state after the token update and the delete of the token link rows. -/
def jobStripped (db : Db) (nowT : Nat) (job : TokenMetadataInfo) : Db :=
  { jobTokensUpdated db nowT job with tokenAttributes :=
      (jobTokensUpdated db nowT job).tokenAttributes.filter (fun r =>
        !(r.contract == job.contract && r.tokenId == job.tokenId)) }

/-- The recount jobs scheduled for the deleted link rows. -/
def jobRecounts (db : Db) (nowT : Nat) (job : TokenMetadataInfo) : List RecountJob :=
  ((jobTokensUpdated db nowT job).tokenAttributes.filter (fun r =>
      r.contract == job.contract && r.tokenId == job.tokenId)).flatMap (fun r =>
    [RecountJob.keyCount job.collection r.key,
     RecountJob.valueCount job.collection r.key r.value])

/-- The final metadata-indexed flag update of processJob. -/
def markIndexed (job : TokenMetadataInfo) (db : Db) : Db :=
  { db with tokens := db.tokens.map (fun t =>
      if tokenMatches t job.contract job.tokenId && !t.metadataIndexed then
        { t with metadataIndexed := true }
      else t) }

/-- The state after applying the example job to the example database once. -/
def exDb1 : Db :=
  { tokens := [{ contract := 1, tokenId := 1, collectionId := some "c", name := some "n", description := none, image := some "i", media := none, attributes := some ["k,7"], metadataIndexed := true, floorSellId := none, floorSellValue := none, floorSellMaker := none, updatedAt := 5 }],
    attributeKeys := [{ id := 1, collectionId := "c", key := "k", kind := "string", rank := none, info := none, attributeCount := 1 }],
    attributes := [{ id := 1, attributeKeyId := 1, value := 7, collectionId := "c", kind := "string", key := "k", tokenCount := 1, sampleImages := ["i"] }],
    tokenAttributes := [{ contract := 1, tokenId := 1, attributeId := 1, collectionId := "c", key := "k", value := 7 }],
    collections := [], orders := [], tokenSetsTokens := [], tokenSets := [],
    nextAttributeKeyId := 2, nextAttributeId := 2 }

/-- The state after applying the example job a second time: identical except the
timestamp and the re-incremented tokenCount. -/
def exDb2 : Db :=
  { tokens := [{ contract := 1, tokenId := 1, collectionId := some "c", name := some "n", description := none, image := some "i", media := none, attributes := some ["k,7"], metadataIndexed := true, floorSellId := none, floorSellValue := none, floorSellMaker := none, updatedAt := 6 }],
    attributeKeys := [{ id := 1, collectionId := "c", key := "k", kind := "string", rank := none, info := none, attributeCount := 1 }],
    attributes := [{ id := 1, attributeKeyId := 1, value := 7, collectionId := "c", kind := "string", key := "k", tokenCount := 2, sampleImages := ["i"] }],
    tokenAttributes := [{ contract := 1, tokenId := 1, attributeId := 1, collectionId := "c", key := "k", value := 7 }],
    collections := [], orders := [], tokenSetsTokens := [], tokenSets := [],
    nextAttributeKeyId := 2, nextAttributeId := 2 }

/-! ## General helper lemmas -/

theorem list_map_id_of_eq {α : Type} {l : List α} {f : α → α}
    (h : ∀ x ∈ l, f x = x) : l.map f = l := by
  induction l with
  | nil => rfl
  | cons a t ih =>
    simp only [List.map_cons]
    rw [h a (by simp), ih (fun x hx => h x (by simp [hx]))]

theorem find?_map_invariant {α : Type} (l : List α) (f : α → α) (p : α → Bool)
    (hp : ∀ x, p (f x) = p x) : (l.map f).find? p = (l.find? p).map f := by
  induction l with
  | nil => rfl
  | cons a t ih =>
    simp only [List.map_cons, List.find?, hp a]
    cases h : p a <;> simp [h, ih]

/-! ## Claim theorems -/

/-- C9: a metadata-indexing job whose (contract, tokenId) matches no token row
completes as a no-op success: no error is raised and the database state
(in particular all AttributeKey, Attribute and TokenAttribute rows) is
returned unchanged, with no recount jobs scheduled. -/
theorem processJob_missing_token_noop (db : Db) (nowT : Nat) (job : TokenMetadataInfo)
    (h : db.tokens.any (fun t => tokenMatches t job.contract job.tokenId) = false) :
    processJob db nowT job = .ok (db, []) := by
  simp [processJob, h]

theorem processJob_missing_token_noop_witness :
    (emptyDb.tokens.any (fun t => tokenMatches t exJob.contract exJob.tokenId) = false) ∧
    processJob emptyDb 5 exJob = .ok (emptyDb, []) :=
  ⟨by decide, processJob_missing_token_noop emptyDb 5 exJob (by decide)⟩

/-- C4: when the computed minimum-value floor listing carries the same
floorSellId and floorSellValue as every collection row it would target, the
compare-and-write of recalculateCollectionFloorSell updates no row: the whole
database, including every updated_at, is unchanged. -/
theorem recalculateCollectionFloorSell_no_change_no_write (db : Db) (c : String)
    (nowT : Nat) (x : FloorCandidate) (hc : floorCandidate db c = some x)
    (hs : ∀ col ∈ db.collections, col.id = c →
      col.floorSellId = some x.floorSellId ∧ col.floorSellValue = x.floorSellValue) :
    recalculateCollectionFloorSell db c nowT = db := by
  have hmap : db.collections.map (fun col =>
      if col.id == c &&
         (col.floorSellId != some x.floorSellId || col.floorSellValue != x.floorSellValue)
      then
        { col with floorSellId := some x.floorSellId,
                   floorSellValue := x.floorSellValue,
                   floorSellMaker := x.floorSellMaker,
                   floorSellSourceIdInt := some x.sourceIdInt,
                   floorSellValidBetween := some x.validBetween,
                   updatedAt := nowT }
      else col) = db.collections := by
    apply list_map_id_of_eq
    intro col hcol
    by_cases hid : col.id = c
    · obtain ⟨h1, h2⟩ := hs col hcol hid
      simp [h1, h2]
    · simp [hid]
  unfold recalculateCollectionFloorSell
  rw [hc]
  show { db with collections := db.collections.map _ } = db
  rw [hmap]

theorem recalculateCollectionFloorSell_no_change_no_write_witness :
    (floorCandidate exFloorDb "c"
       = some { floorSellId := 3, floorSellValue := some 100, floorSellMaker := some 5,
                sourceIdInt := 2, validBetween := "[0,)" }) ∧
    recalculateCollectionFloorSell exFloorDb "c" 99 = exFloorDb :=
  ⟨by decide,
   recalculateCollectionFloorSell_no_change_no_write exFloorDb "c" 99
     { floorSellId := 3, floorSellValue := some 100, floorSellMaker := some 5,
       sourceIdInt := 2, validBetween := "[0,)" }
     (by decide) (by decide)⟩

/-- C10: when the minimum-floor subquery returns no row (no token of the
collection joins a floor-sell order), recalculateCollectionFloorSell writes
nothing at all: the database is returned unchanged, so a previously stored
non-null floor cache is never cleared back to null. -/
theorem recalculateCollectionFloorSell_no_candidate_no_write (db : Db) (c : String)
    (nowT : Nat) (h : floorCandidate db c = none) :
    recalculateCollectionFloorSell db c nowT = db := by
  unfold recalculateCollectionFloorSell
  rw [h]

theorem recalculateCollectionFloorSell_no_candidate_no_write_witness :
    (floorCandidate exStaleDb "c" = none) ∧
    recalculateCollectionFloorSell exStaleDb "c" 99 = exStaleDb :=
  ⟨by decide, recalculateCollectionFloorSell_no_candidate_no_write exStaleDb "c" 99 (by decide)⟩

/-- C1: contrary to the claim, when no fillable, approved, open-taker sell
(resp. buy) order exists for the collection, revalidateCollectionFloorAsk
(resp. revalidateCollectionTopBuy) does not complete without error: oneOrNone
yields null and the dereference of `.id` raises a TypeError, so the call throws
instead of taking no action. -/
theorem revalidateCollection_no_candidate_throws (db : Db) (c : String) (nowT : Nat)
    (hask : floorAskCandidate db c = none) (hbuy : topBuyCandidate db c = none) :
    revalidateCollectionFloorAsk db c nowT = .error .nullDeref ∧
    revalidateCollectionTopBuy db c nowT = .error .nullDeref := by
  constructor
  · unfold revalidateCollectionFloorAsk
    rw [hask]
  · unfold revalidateCollectionTopBuy
    rw [hbuy]

theorem revalidateCollection_no_candidate_throws_witness :
    (floorAskCandidate emptyDb "c" = none) ∧ (topBuyCandidate emptyDb "c" = none) ∧
    (revalidateCollectionFloorAsk emptyDb "c" 0 = .error .nullDeref ∧
     revalidateCollectionTopBuy emptyDb "c" 0 = .error .nullDeref) :=
  ⟨by decide, by decide,
   revalidateCollection_no_candidate_throws emptyDb "c" 0 (by decide) (by decide)⟩

/-- C2, counterexample: the claim predicts that in a create-race (conditional
update finds no row, conflict-ignoring insert returns no id) the worker
reattempts the lookup once and only fails if that reselect is still unresolved.
In the code there is no reselect: with a concurrent winner committing the key
between the two statements, the job fails even though a reattempted lookup of
the same state would resolve the key (here to id 42). -/
theorem resolveAttributeKey_race_counterexample :
    resolveAttributeKeyRaced emptyDb raceCommit "c" "k" "string" none 0
      = .error (.attributeKeyError "k") ∧
    attributeKeySelect (raceCommit (attributeKeyUpdate emptyDb "c" "k" 0).2) "c" "k"
      = some 42 :=
  ⟨rfl, rfl⟩

/-- C2, amended: when neither the conditional update nor the conflict-ignoring
insert yields an id, the worker fails the job immediately — it performs no
further lookup; the queue-level retry of the failed job is what reattempts. -/
theorem resolveAttributeKey_no_reselect (db : Db) (interleave : Db → Db)
    (c k kind : String) (rank : Option Nat) (v : Int)
    (h1 : attributeKeySelect db c k = none)
    (h2 : (interleave (attributeKeyUpdate db c k v).2).attributeKeys.any (kMatch c k) = true) :
    resolveAttributeKeyRaced db interleave c k kind rank v
      = .error (.attributeKeyError k) := by
  have h2x : (interleave (attributeKeyUpdate db c k v).2).attributeKeys.any (kMatch c k) = true := h2
  unfold attributeKeyUpdate at h2x
  unfold resolveAttributeKeyRaced attributeKeyUpdate
  rw [h1]
  dsimp only
  unfold attributeKeyInsert
  rw [h2x]
  rfl

theorem resolveAttributeKey_no_reselect_witness :
    (attributeKeySelect emptyDb "c" "k" = none) ∧
    ((raceCommit (attributeKeyUpdate emptyDb "c" "k" 0).2).attributeKeys.any
        (kMatch "c" "k") = true) ∧
    resolveAttributeKeyRaced emptyDb raceCommit "c" "k" "number" none 0
      = .error (.attributeKeyError "k") :=
  ⟨by decide, by decide,
   resolveAttributeKey_no_reselect emptyDb raceCommit "c" "k" "number" none 0
     (by decide) (by decide)⟩

theorem find?_map_update {α : Type} (l : List α) (p : α → Bool) (g : α → α)
    (hg : ∀ r, p (g r) = p r) (kr : α) (hk : l.find? p = some kr) :
    (l.map (fun r => if p r then g r else r)).find? p = some (g kr) := by
  induction l with
  | nil => simp at hk
  | cons x t ih =>
    rw [List.map_cons]
    by_cases hx : p x = true
    · rw [List.find?_cons_of_pos _ hx] at hk
      injection hk with hk
      subst hk
      rw [if_pos hx, List.find?_cons_of_pos]
      rw [hg]
      exact hx
    · have hx2 : p x = false := by
        cases h : p x
        · rfl
        · exact absurd h hx
      rw [List.find?_cons_of_neg _ (by simp [hx2])] at hk
      rw [if_neg (by simp [hx2]), List.find?_cons_of_neg _ (by simp [hx2])]
      exact ih hk

/-- C6: the attribute insert is conflict-ignoring and AttributeKey.attributeCount
is incremented by exactly the number of rows the insert actually created —
0 when the (attributeKeyId, value) row already existed, 1 when this statement
created it, never an unconditional 1; likewise the token_attributes insert
increments Attribute.tokenCount by exactly the number of link rows actually
inserted (0 or 1). -/
theorem attributeInsertCte_attributeKeys (db : Db) (kid : Nat) (v : Int)
    (c kind k : String) :
    (attributeInsertCte db kid v c kind k).2.attributeKeys
      = db.attributeKeys.map (fun r => if r.id == kid then
          { r with attributeCount := r.attributeCount +
              (if db.attributes.any (aMatch kid v) then 0 else 1) } else r) := by
  unfold attributeInsertCte
  by_cases hconf : db.attributes.any (aMatch kid v) = true <;> simp [hconf]

theorem linkTokenAttribute_attributes (db : Db) (job : TokenMetadataInfo)
    (a : JobAttribute) (attrId : Nat) :
    (linkTokenAttribute db job a attrId).attributes
      = db.attributes.map (fun r => if r.id == attrId then
          { r with
              tokenCount := r.tokenCount +
                (if tokenAttrConflict db job.contract job.tokenId attrId then 0 else 1),
              sampleImages := match job.imageUrl with
                | some img => updateSampleImages r.sampleImages img
                | none => r.sampleImages } else r) := by
  unfold linkTokenAttribute
  by_cases hconf : tokenAttrConflict db job.contract job.tokenId attrId = true <;>
    simp [hconf]

theorem counter_increments_by_rows_created (db : Db) (kid : Nat) (v : Int)
    (c kind k : String) (kr : AttributeKeyRow)
    (hk : db.attributeKeys.find? (fun r => r.id == kid) = some kr)
    (job : TokenMetadataInfo) (a : JobAttribute) (attrId : Nat) (ar : AttributeRow)
    (ha : db.attributes.find? (fun r => r.id == attrId) = some ar) :
    ((attributeInsertCte db kid v c kind k).2.attributes.length
       = db.attributes.length + (if db.attributes.any (aMatch kid v) then 0 else 1)) ∧
    ((attributeInsertCte db kid v c kind k).2.attributeKeys.find? (fun r => r.id == kid)
       = some { kr with attributeCount := kr.attributeCount +
           (if db.attributes.any (aMatch kid v) then 0 else 1) }) ∧
    ((linkTokenAttribute db job a attrId).tokenAttributes.length
       = db.tokenAttributes.length
         + (if tokenAttrConflict db job.contract job.tokenId attrId then 0 else 1)) ∧
    (∃ ar2, (linkTokenAttribute db job a attrId).attributes.find? (fun r => r.id == attrId)
       = some ar2 ∧ ar2.tokenCount = ar.tokenCount +
           (if tokenAttrConflict db job.contract job.tokenId attrId then 0 else 1)) := by
  refine ⟨?_, ?_, ?_, ?_⟩
  · by_cases hconf : db.attributes.any (aMatch kid v) = true
    · simp [attributeInsertCte, hconf]
    · simp only [Bool.not_eq_true] at hconf
      simp [attributeInsertCte, hconf]
  · rw [attributeInsertCte_attributeKeys]
    exact find?_map_update _ _
      (fun r => { r with attributeCount := r.attributeCount +
          (if db.attributes.any (aMatch kid v) then 0 else 1) }) (fun r => rfl) kr hk
  · by_cases hconf : tokenAttrConflict db job.contract job.tokenId attrId = true
    · simp [linkTokenAttribute, hconf]
    · simp only [Bool.not_eq_true] at hconf
      simp [linkTokenAttribute, hconf]
  · rw [linkTokenAttribute_attributes]
    exact ⟨_, find?_map_update _ _
      (fun r => { r with
          tokenCount := r.tokenCount +
            (if tokenAttrConflict db job.contract job.tokenId attrId then 0 else 1),
          sampleImages := match job.imageUrl with
            | some img => updateSampleImages r.sampleImages img
            | none => r.sampleImages }) (fun r => rfl) ar ha, rfl⟩

theorem counter_increments_by_rows_created_witness :
    (exCounterDb.attributeKeys.find? (fun r => r.id == 1) = some exKeyRow) ∧
    (exCounterDb.attributes.find? (fun r => r.id == 1) = some exAttrRow) ∧
    (((attributeInsertCte exCounterDb 1 8 "c" "string" "k").2.attributes.length
       = exCounterDb.attributes.length
         + (if exCounterDb.attributes.any (aMatch 1 8) then 0 else 1)) ∧
     ((attributeInsertCte exCounterDb 1 8 "c" "string" "k").2.attributeKeys.find?
          (fun r => r.id == 1)
       = some { exKeyRow with attributeCount := exKeyRow.attributeCount +
           (if exCounterDb.attributes.any (aMatch 1 8) then 0 else 1) }) ∧
     ((linkTokenAttribute exCounterDb exJob { key := "k", value := 7, kind := "string", rank := none } 1).tokenAttributes.length
       = exCounterDb.tokenAttributes.length
         + (if tokenAttrConflict exCounterDb exJob.contract exJob.tokenId 1 then 0 else 1)) ∧
     (∃ ar2, (linkTokenAttribute exCounterDb exJob { key := "k", value := 7, kind := "string", rank := none } 1).attributes.find?
          (fun r => r.id == 1)
       = some ar2 ∧ ar2.tokenCount = exAttrRow.tokenCount +
           (if tokenAttrConflict exCounterDb exJob.contract exJob.tokenId 1 then 0 else 1))) :=
  ⟨by decide, by decide,
   counter_increments_by_rows_created exCounterDb 1 8 "c" "string" "k" exKeyRow
     (by decide) exJob { key := "k", value := 7, kind := "string", rank := none } 1
     exAttrRow (by decide)⟩

theorem foldl_widenInfo_eq (vs : List Int) : ∀ (a b : Int),
    vs.foldl widenInfo (some { minRange := a, maxRange := b })
      = some { minRange := vs.foldl min a, maxRange := vs.foldl max b } := by
  induction vs with
  | nil => intro a b; rfl
  | cons x t ih =>
    intro a b
    have h1 : widenInfo (some { minRange := a, maxRange := b }) x
        = some { minRange := min a x, maxRange := max b x } := by
      simp only [widenInfo, Option.some.injEq, RangeInfo.mk.injEq]
      constructor
      · rcases le_or_lt a x with h | h
        · rw [if_neg (by omega), min_eq_left h]
        · rw [if_pos (by omega), min_eq_right (le_of_lt h)]
      · rcases le_or_lt x b with h | h
        · rw [if_neg (by omega), max_eq_left h]
        · rw [if_pos (by omega), max_eq_right (le_of_lt h)]
    simp only [List.foldl_cons, h1]
    exact ih (min a x) (max b x)

/-- C7: for a numeric attribute key the stored range only widens and never
narrows, and after the key is created with range {v, v} on first sighting and
widened with each later observed value v1..vN (in any order — a fold of min
resp. max is order-insensitive), the final range is exactly
[min of all observed values, max of all observed values]. -/
theorem attribute_key_range_monotone :
    (∀ (i : RangeInfo) (w : Int),
       ((widenInfo (some i) w).getD i).minRange ≤ i.minRange ∧
       i.maxRange ≤ ((widenInfo (some i) w).getD i).maxRange) ∧
    (∀ (v : Int) (vs : List Int),
       vs.foldl widenInfo (some { minRange := v, maxRange := v })
         = some { minRange := vs.foldl min v, maxRange := vs.foldl max v }) := by
  constructor
  · intro i w
    simp only [widenInfo, Option.getD_some]
    constructor
    · dsimp only
      split <;> omega
    · dsimp only
      split <;> omega
  · intro v vs
    exact foldl_widenInfo_eq vs v v

/-- C8: the sample_images CASE keeps the list at most 4 entries long,
most-recent-first and duplicate-free: from empty, inserting distinct images
a, b, c, d, e in order yields [e, d, c, b] (at capacity the 4th slot is evicted
before prepending); inserting an image already present leaves the list
unchanged; and a list of at most 4 entries never grows beyond 4. -/
theorem sample_images_ring (a b c d e : String)
    (hab : a ≠ b) (hac : a ≠ c) (had : a ≠ d) (hae : a ≠ e)
    (hbc : b ≠ c) (hbd : b ≠ d) (hbe : b ≠ e)
    (hcd : c ≠ d) (hce : c ≠ e) (hde : d ≠ e) :
    updateSampleImages (updateSampleImages (updateSampleImages
      (updateSampleImages (updateSampleImages [] a) b) c) d) e = [e, d, c, b] ∧
    (∀ (l : List String) (img : String), img ∈ l → updateSampleImages l img = l) ∧
    (∀ (l : List String) (img : String), l.length ≤ 4 →
       (updateSampleImages l img).length ≤ 4) := by
  refine ⟨?_, ?_, ?_⟩
  · have c1 : ([] : List String).contains a = false := by simp
    have c2 : [a].contains b = false := by simpa using Ne.symm hab
    have c3 : [b, a].contains c = false := by
      simpa using ⟨Ne.symm hbc, Ne.symm hac⟩
    have c4 : [c, b, a].contains d = false := by
      simpa using ⟨Ne.symm hcd, Ne.symm hbd, Ne.symm had⟩
    have c5 : [d, c, b, a].contains e = false := by
      simpa using ⟨Ne.symm hde, Ne.symm hce, Ne.symm hbe, Ne.symm hae⟩
    have s1 : updateSampleImages [] a = [a] := by
      simp [updateSampleImages, c1]
    have s2 : updateSampleImages [a] b = [b, a] := by
      simp [updateSampleImages, Ne.symm hab]
    have s3 : updateSampleImages [b, a] c = [c, b, a] := by
      simp [updateSampleImages, Ne.symm hbc, Ne.symm hac]
    have s4 : updateSampleImages [c, b, a] d = [d, c, b, a] := by
      simp [updateSampleImages, Ne.symm hcd, Ne.symm hbd, Ne.symm had]
    have s5 : updateSampleImages [d, c, b, a] e = [e, d, c, b] := by
      have hlen : ¬ (([d, c, b, a] : List String).length < 4) := by simp
      unfold updateSampleImages
      rw [c5]
      simp only [hlen, if_false, Bool.and_false, Bool.false_and, Bool.not_false,
        Bool.and_true, List.length_cons, List.length_nil]
      have hget : ([d, c, b, a] : List String)[3]? = some a := rfl
      rw [if_neg (by simp), if_pos (by simp), hget]
      have hfd : (d != a) = true := by simpa using had.symm
      have hfc : (c != a) = true := by simpa using hac.symm
      have hfb : (b != a) = true := by simpa using hab.symm
      have hfa : (a != a) = false := by simp
      simp [List.filter, hfd, hfc, hfb, hfa]
    rw [s1, s2, s3, s4, s5]
  · intro l img him
    have hc : l.contains img = true := by simpa using him
    unfold updateSampleImages
    rw [hc]
    simp
  · intro l img hlen
    by_cases hmem : img ∈ l
    · have hc : l.contains img = true := by simpa using hmem
      unfold updateSampleImages
      rw [hc]
      simpa using hlen
    · have hc : l.contains img = false := by simpa using hmem
      unfold updateSampleImages
      rw [hc]
      by_cases hl : l.length < 4
      · rw [if_pos (by simp [hl])]
        simp only [List.length_cons]
        omega
      · have hl4 : l.length = 4 := by omega
        rw [if_neg (by simp [hl]), if_pos (by simp; omega)]
        have h3 : 3 < l.length := by omega
        rw [List.getElem?_eq_getElem h3]
        have hmem3 : l[3] ∈ l := List.getElem_mem h3
        have hflt : (l.filter (fun y => y != l[3])).length < l.length :=
          List.length_filter_lt_length_iff_exists.mpr ⟨l[3], hmem3, by simp⟩
        simp only [List.length_cons]
        omega

theorem sample_images_ring_witness :
    updateSampleImages (updateSampleImages (updateSampleImages
      (updateSampleImages (updateSampleImages [] "a") "b") "c") "d") "e"
      = ["e", "d", "c", "b"] ∧
    (∀ (l : List String) (img : String), img ∈ l → updateSampleImages l img = l) ∧
    (∀ (l : List String) (img : String), l.length ≤ 4 →
       (updateSampleImages l img).length ≤ 4) :=
  sample_images_ring "a" "b" "c" "d" "e" (by decide) (by decide) (by decide)
    (by decide) (by decide) (by decide) (by decide) (by decide) (by decide) (by decide)

/-! ## Ordering facts for the bid-event feed -/

theorem pairLt_irrefl (a : Nat × Nat) : pairLt a a = false := by
  simp [pairLt]

theorem pairLt_trans {a b c : Nat × Nat} (h1 : pairLt a b = true)
    (h2 : pairLt b c = true) : pairLt a c = true := by
  simp only [pairLt, Bool.or_eq_true, Bool.and_eq_true, beq_iff_eq,
    decide_eq_true_eq] at h1 h2 ⊢
  omega

theorem pairLt_asymm {a b : Nat × Nat} (h : pairLt a b = true) : pairLt b a = false := by
  simp only [pairLt, Bool.or_eq_true, Bool.and_eq_true, beq_iff_eq,
    decide_eq_true_eq] at h
  simp only [pairLt, Bool.or_eq_false_iff, Bool.and_eq_false_iff]
  constructor
  · simp only [decide_eq_false_iff_not]
    omega
  · by_cases hx : b.1 = a.1
    · right
      simp only [decide_eq_false_iff_not]
      omega
    · left
      simp [hx]

theorem orderLtB_irrefl (q : BidEventsQuery) (a : BidEvent) : orderLtB q a a = false := by
  unfold orderLtB
  split <;> exact pairLt_irrefl _

theorem orderLtB_trans (q : BidEventsQuery) {a b c : BidEvent}
    (h1 : orderLtB q a b = true) (h2 : orderLtB q b c = true) : orderLtB q a c = true := by
  unfold orderLtB at h1 h2 ⊢
  split at h1 <;> rename_i hdir <;> simp only [hdir] at h2 ⊢ <;>
    first
    | exact pairLt_trans h1 h2
    | exact pairLt_trans h2 h1

theorem orderLtB_asymm (q : BidEventsQuery) {a b : BidEvent}
    (h : orderLtB q a b = true) : orderLtB q b a = false := by
  unfold orderLtB at h ⊢
  split at h <;> rename_i hdir <;> simp only [hdir] <;> exact pairLt_asymm h

theorem pairLt_arith {a b : Nat × Nat} :
    pairLt a b = true ↔ (a.1 < b.1 ∨ (a.1 = b.1 ∧ a.2 < b.2)) := by
  simp [pairLt]

theorem pairLe_arith {a b : Nat × Nat} :
    pairLe a b = true ↔ (a.1 < b.1 ∨ (a.1 = b.1 ∧ a.2 ≤ b.2)) := by
  simp [pairLe]

theorem orderLeB_total (q : BidEventsQuery) (a b : BidEvent) :
    orderLeB q a b = true ∨ orderLeB q b a = true := by
  cases hdir : q.sortDirection == "asc" <;>
    simp only [orderLeB, hdir, Bool.false_eq_true, if_true, if_false, ite_true,
      ite_false, Bool.true_eq_false, reduceIte] <;>
    rw [pairLe_arith] <;> rw [pairLe_arith] <;> omega

theorem orderLeB_trans (q : BidEventsQuery) {a b c : BidEvent}
    (h1 : orderLeB q a b = true) (h2 : orderLeB q b c = true) : orderLeB q a c = true := by
  cases hdir : q.sortDirection == "asc" <;>
    simp only [orderLeB, hdir, Bool.false_eq_true, if_true, if_false, ite_true,
      ite_false, Bool.true_eq_false, reduceIte] at h1 h2 ⊢ <;>
    rw [pairLe_arith] at h1 h2 ⊢ <;> omega

theorem orderLtB_of_le_of_key_ne (q : BidEventsQuery) {a b : BidEvent}
    (h : orderLeB q a b = true) (hne : eventKey a ≠ eventKey b) : orderLtB q a b = true := by
  have hne2 : ¬ (eventKey a).1 = (eventKey b).1 ∨ ¬ (eventKey a).2 = (eventKey b).2 := by
    by_cases h1 : (eventKey a).1 = (eventKey b).1
    · right
      intro h2
      exact hne (Prod.ext h1 h2)
    · left
      exact h1
  cases hdir : q.sortDirection == "asc" <;>
    simp only [orderLeB, orderLtB, hdir, Bool.false_eq_true, if_true, if_false,
      ite_true, ite_false, Bool.true_eq_false, reduceIte] at h ⊢ <;>
    rw [pairLe_arith] at h <;> rw [pairLt_arith] <;> omega

theorem afterCursor_eventKey (q : BidEventsQuery) (x e : BidEvent) :
    afterCursor q (eventKey x) e = orderLtB q x e := by
  unfold afterCursor orderLtB
  split <;> rfl

theorem afterCursor_trans (q : BidEventsQuery) {cur : Nat × Nat} {x e : BidEvent}
    (h1 : afterCursor q cur x = true) (h2 : orderLtB q x e = true) :
    afterCursor q cur e = true := by
  unfold afterCursor at h1 ⊢
  unfold orderLtB at h2
  split at h1 <;> rename_i hdir <;> simp only [hdir] at h2 ⊢ <;>
    first
    | exact pairLt_trans h1 h2
    | exact pairLt_trans h2 h1

theorem pairwise_lt_of_sorted_keys {q : BidEventsQuery} {l : List BidEvent}
    (hs : List.Pairwise (orderLeP q) l)
    (hk : List.Pairwise (fun a b => eventKey a ≠ eventKey b) l) :
    List.Pairwise (fun a b => orderLtB q a b = true) l :=
  (hs.and hk).imp (fun h => orderLtB_of_le_of_key_ne q h.1 h.2)

theorem strict_sorted_eq_of_perm (q : BidEventsQuery) {l1 l2 : List BidEvent}
    (hp : l1.Perm l2)
    (h1 : List.Pairwise (fun a b => orderLtB q a b = true) l1)
    (h2 : List.Pairwise (fun a b => orderLtB q a b = true) l2) : l1 = l2 := by
  haveI : IsAntisymm BidEvent (fun a b => orderLtB q a b = true ∨ a = b) := by
    refine ⟨?_⟩
    intro a b hab hba
    rcases hab with hab | hab
    · rcases hba with hba | hba
      · exact absurd hba (by simp [orderLtB_asymm q hab])
      · exact hba.symm
    · exact hab
  have hs1 : List.Sorted (fun a b => orderLtB q a b = true ∨ a = b) l1 := h1.imp Or.inl
  have hs2 : List.Sorted (fun a b => orderLtB q a b = true ∨ a = b) l2 := h2.imp Or.inl
  exact List.eq_of_perm_of_sorted hp hs1 hs2

theorem sortedFiltered_perm (events : List BidEvent) (q : BidEventsQuery) :
    (sortedFiltered events q).Perm (events.filter (matchesFilter q)) :=
  List.perm_insertionSort _ _

theorem sortedFiltered_sorted (events : List BidEvent) (q : BidEventsQuery) :
    List.Pairwise (orderLeP q) (sortedFiltered events q) :=
  List.sorted_insertionSort _ _

theorem sortedFiltered_keys (events : List BidEvent) (q : BidEventsQuery)
    (hk : List.Pairwise (fun a b => eventKey a ≠ eventKey b) events) :
    List.Pairwise (fun a b => eventKey a ≠ eventKey b) (sortedFiltered events q) := by
  have h1 : List.Pairwise (fun a b => eventKey a ≠ eventKey b)
      (events.filter (matchesFilter q)) :=
    List.Pairwise.sublist (List.filter_sublist events) hk
  exact ((sortedFiltered_perm events q).pairwise_iff (fun h => Ne.symm h)).mpr h1

theorem sortedFiltered_pairwise_lt (events : List BidEvent) (q : BidEventsQuery)
    (hk : List.Pairwise (fun a b => eventKey a ≠ eventKey b) events) :
    List.Pairwise (fun a b => orderLtB q a b = true) (sortedFiltered events q) :=
  pairwise_lt_of_sorted_keys (sortedFiltered_sorted events q)
    (sortedFiltered_keys events q hk)

theorem bidAvail_pairwise_lt (events : List BidEvent) (q : BidEventsQuery)
    (hk : List.Pairwise (fun a b => eventKey a ≠ eventKey b) events) :
    ∀ (cont : Option (Nat × Nat)),
      List.Pairwise (fun a b => orderLtB q a b = true) (bidAvail events q cont)
  | none => sortedFiltered_pairwise_lt events q hk
  | some _ => (sortedFiltered_pairwise_lt events q hk).filter _

theorem page_sorted_eq (events : List BidEvent) (q : BidEventsQuery)
    (hk : List.Pairwise (fun a b => eventKey a ≠ eventKey b) events)
    (cont : Option (Nat × Nat)) :
    List.insertionSort (orderLeP q) (events.filter (fun e => matchesFilter q e &&
        (match cont with
         | none => true
         | some cur => afterCursor q cur e)))
      = bidAvail events q cont := by
  cases cont with
  | none =>
    show List.insertionSort (orderLeP q)
        (events.filter (fun e => matchesFilter q e && true)) = sortedFiltered events q
    simp only [Bool.and_true]
    rfl
  | some cur =>
    show List.insertionSort (orderLeP q)
        (events.filter (fun e => matchesFilter q e && afterCursor q cur e))
      = (sortedFiltered events q).filter (afterCursor q cur)
    have hswap : events.filter (fun e => matchesFilter q e && afterCursor q cur e)
        = (events.filter (matchesFilter q)).filter (afterCursor q cur) := by
      rw [List.filter_filter]
      exact List.filter_congr (fun e _ => Bool.and_comm _ _)
    rw [hswap]
    apply strict_sorted_eq_of_perm q
    · exact ((List.perm_insertionSort _ _).trans
        (((sortedFiltered_perm events q).symm).filter _))
    · apply pairwise_lt_of_sorted_keys (List.sorted_insertionSort _ _)
      have hkf : List.Pairwise (fun a b => eventKey a ≠ eventKey b)
          ((events.filter (matchesFilter q)).filter (afterCursor q cur)) :=
        List.Pairwise.sublist
          ((List.filter_sublist _).trans (List.filter_sublist events)) hk
      exact ((List.perm_insertionSort _ _).pairwise_iff (fun h => Ne.symm h)).mpr hkf
    · exact (sortedFiltered_pairwise_lt events q hk).filter _

theorem filter_after_of_pairwise (q : BidEventsQuery) :
    ∀ (l : List BidEvent), List.Pairwise (fun a b => orderLtB q a b = true) l →
      ∀ (i : Nat) (h : i < l.length),
        l.filter (afterCursor q (eventKey (l.get ⟨i, h⟩))) = l.drop (i + 1) := by
  intro l
  induction l with
  | nil =>
    intro _ i h
    exact absurd h (by simp)
  | cons x t ih =>
    intro hl i h
    rw [List.pairwise_cons] at hl
    obtain ⟨hx, ht⟩ := hl
    cases i with
    | zero =>
      show (x :: t).filter (afterCursor q (eventKey x)) = t
      rw [List.filter_cons_of_neg, List.filter_eq_self.mpr]
      · intro a ha
        rw [afterCursor_eventKey]
        exact hx a ha
      · rw [afterCursor_eventKey, orderLtB_irrefl]
        simp
    | succ j =>
      have hj : j < t.length := by simpa using h
      show (x :: t).filter (afterCursor q (eventKey (t.get ⟨j, hj⟩))) = t.drop (j + 1)
      rw [List.filter_cons_of_neg]
      · exact ih ht j hj
      · rw [afterCursor_eventKey]
        have hmem : t.get ⟨j, hj⟩ ∈ t := List.get_mem t j hj
        have hasym := orderLtB_asymm q (hx _ hmem)
        simp only [Bool.not_eq_true]
        exact hasym

theorem bidAvail_next (events : List BidEvent) (q : BidEventsQuery)
    (cont : Option (Nat × Nat)) (x : BidEvent) (hx : x ∈ bidAvail events q cont) :
    bidAvail events q (some (eventKey x))
      = (bidAvail events q cont).filter (afterCursor q (eventKey x)) := by
  cases cont with
  | none => rfl
  | some cur =>
    show (sortedFiltered events q).filter (afterCursor q (eventKey x))
      = ((sortedFiltered events q).filter (afterCursor q cur)).filter
          (afterCursor q (eventKey x))
    rw [List.filter_filter]
    apply List.filter_congr
    intro e _
    have hcurx : afterCursor q cur x = true := (List.mem_filter.mp hx).2
    cases hae : afterCursor q (eventKey x) e
    · simp
    · have hce : afterCursor q cur e = true := by
        rw [afterCursor_eventKey] at hae
        exact afterCursor_trans q hcurx hae
      simp [hce]

theorem getBidEventsPage_eval (events : List BidEvent) (q : BidEventsQuery)
    (hk : List.Pairwise (fun a b => eventKey a ≠ eventKey b) events)
    (cont : Option (Nat × Nat)) :
    getBidEventsPage events q cont
      = ((bidAvail events q cont).take q.limit,
         if ((bidAvail events q cont).take q.limit).length == q.limit
         then ((bidAvail events q cont).take q.limit).getLast?.map eventKey
         else none) := by
  simp only [getBidEventsPage]
  rw [page_sorted_eq events q hk cont]

theorem take_getLast?_eq (l : List BidEvent) (n : Nat) (h1 : 1 ≤ n)
    (h2 : n ≤ l.length) :
    (l.take n).getLast? = some (l.get ⟨n - 1, by omega⟩) := by
  rw [List.getLast?_eq_getElem?, List.length_take]
  have hmin : n ⊓ l.length - 1 = n - 1 := by
    simp only [Nat.min_def]
    split <;> omega
  rw [hmin, List.getElem?_take, if_pos (by omega),
    List.getElem?_eq_getElem (by omega)]
  rfl

theorem getLast?_cons_of_ne_nil {α : Type} (x : α) {l : List α} (h : l ≠ []) :
    (x :: l).getLast? = l.getLast? := by
  cases l with
  | nil => exact absurd rfl h
  | cons y t => exact List.getLast?_cons_cons

theorem bidEventPagesAux_spec (events : List BidEvent) (q : BidEventsQuery)
    (hq : 1 ≤ q.limit)
    (hk : List.Pairwise (fun a b => eventKey a ≠ eventKey b) events) :
    ∀ (fuel : Nat) (cont : Option (Nat × Nat)),
      (bidAvail events q cont).length < fuel →
      (((bidEventPagesAux events q fuel cont).map Prod.fst).flatten
          = bidAvail events q cont) ∧
      bidEventPagesAux events q fuel cont ≠ [] ∧
      (∀ pr, (bidEventPagesAux events q fuel cont).getLast? = some pr →
         pr.1.length < q.limit ∧ pr.2 = none) ∧
      (∀ pr ∈ (bidEventPagesAux events q fuel cont).dropLast,
         pr.1.length = q.limit ∧ pr.2 ≠ none) := by
  intro fuel
  induction fuel with
  | zero =>
    intro cont hfuel
    exact absurd hfuel (by omega)
  | succ n ih =>
    intro cont hfuel
    by_cases hlen : (bidAvail events q cont).length < q.limit
    · have htake : (bidAvail events q cont).take q.limit = bidAvail events q cont :=
        List.take_of_length_le (by omega)
      have hpage : getBidEventsPage events q cont = (bidAvail events q cont, none) := by
        rw [getBidEventsPage_eval events q hk cont, htake]
        rw [if_neg (by simp; omega)]
      have hstep : bidEventPagesAux events q (n + 1) cont
          = [(bidAvail events q cont, none)] := by
        simp only [bidEventPagesAux]
        rw [hpage]
      refine ⟨?_, ?_, ?_, ?_⟩
      · rw [hstep]
        simp
      · rw [hstep]
        simp
      · intro pr hpr
        rw [hstep] at hpr
        simp only [List.getLast?_singleton, Option.some.injEq] at hpr
        rw [← hpr]
        exact ⟨hlen, rfl⟩
      · intro pr hpr
        rw [hstep] at hpr
        simp at hpr
    · push_neg at hlen
      have hlim1 : q.limit - 1 < (bidAvail events q cont).length := by omega
      have htlen : ((bidAvail events q cont).take q.limit).length = q.limit := by
        rw [List.length_take]
        simp only [Nat.min_def]
        split <;> omega
      have hpage : getBidEventsPage events q cont
          = ((bidAvail events q cont).take q.limit,
             some (eventKey ((bidAvail events q cont).get ⟨q.limit - 1, hlim1⟩))) := by
        rw [getBidEventsPage_eval events q hk cont,
          take_getLast?_eq _ _ hq hlen]
        rw [if_pos (by rw [htlen]; simp)]
        rfl
      have hxmem : (bidAvail events q cont).get ⟨q.limit - 1, hlim1⟩
          ∈ bidAvail events q cont := List.get_mem _ _ _
      have hnext : bidAvail events q
            (some (eventKey ((bidAvail events q cont).get ⟨q.limit - 1, hlim1⟩)))
          = (bidAvail events q cont).drop q.limit := by
        rw [bidAvail_next events q cont _ hxmem]
        have hfil := filter_after_of_pairwise q (bidAvail events q cont)
          (bidAvail_pairwise_lt events q hk cont) (q.limit - 1) hlim1
        have hsucc : q.limit - 1 + 1 = q.limit := by omega
        rw [hsucc] at hfil
        exact hfil
      have hflen : (bidAvail events q
            (some (eventKey ((bidAvail events q cont).get ⟨q.limit - 1, hlim1⟩)))).length
          < n := by
        rw [hnext, List.length_drop]
        omega
      obtain ⟨ihj, ihne, ihlast, ihfull⟩ := ih _ hflen
      have hstep : bidEventPagesAux events q (n + 1) cont
          = ((bidAvail events q cont).take q.limit,
             some (eventKey ((bidAvail events q cont).get ⟨q.limit - 1, hlim1⟩)))
            :: bidEventPagesAux events q n
                (some (eventKey ((bidAvail events q cont).get ⟨q.limit - 1, hlim1⟩))) := by
        simp only [bidEventPagesAux]
        rw [hpage]
      refine ⟨?_, ?_, ?_, ?_⟩
      · rw [hstep]
        simp only [List.map_cons, List.flatten_cons]
        rw [ihj, hnext, List.take_append_drop]
      · rw [hstep]
        simp
      · intro pr hpr
        rw [hstep, getLast?_cons_of_ne_nil _ ihne] at hpr
        exact ihlast pr hpr
      · intro pr hpr
        rw [hstep, List.dropLast_cons_of_ne_nil ihne] at hpr
        rcases List.mem_cons.mp hpr with hpr | hpr
        · rw [hpr]
          exact ⟨htlen, by simp⟩
        · exact ihfull pr hpr

/-- C3: for a fixed filter and sort direction over a fixed bid-event log with
unique event ids, following the continuation from an empty cursor yields every
matching event exactly once (the concatenation of the pages is a permutation of
the filtered log), in strict (createdAt, id) order; the page sequence is
nonempty, every page before the last holds exactly limit rows and carries a
non-null continuation, and the last page holds fewer than limit rows and
carries a null continuation. -/
theorem getBidEvents_pagination_complete (events : List BidEvent)
    (q : BidEventsQuery) (hq : 1 ≤ q.limit)
    (hid : (events.map (fun e => e.id)).Nodup) :
    (((bidEventPages events q).map Prod.fst).flatten).Perm
        (events.filter (matchesFilter q)) ∧
    List.Pairwise (fun a b => orderLtB q a b = true)
      (((bidEventPages events q).map Prod.fst).flatten) ∧
    bidEventPages events q ≠ [] ∧
    (∀ pr, (bidEventPages events q).getLast? = some pr →
       pr.1.length < q.limit ∧ pr.2 = none) ∧
    (∀ pr ∈ (bidEventPages events q).dropLast,
       pr.1.length = q.limit ∧ pr.2 ≠ none) := by
  have hk : List.Pairwise (fun a b => eventKey a ≠ eventKey b) events := by
    have h1 : List.Pairwise (fun a b => a.id ≠ b.id) events :=
      List.pairwise_map.mp hid
    exact h1.imp (fun h hkeq => h (congrArg Prod.snd hkeq))
  have hfuel : (bidAvail events q none).length < events.length + 1 := by
    show (sortedFiltered events q).length < events.length + 1
    have h1 := (sortedFiltered_perm events q).length_eq
    have h2 := List.length_filter_le (matchesFilter q) events
    omega
  obtain ⟨hjoin, hne, hlast, hfull⟩ :=
    bidEventPagesAux_spec events q hq hk (events.length + 1) none hfuel
  have hpages : bidEventPages events q
      = bidEventPagesAux events q (events.length + 1) none := rfl
  refine ⟨?_, ?_, ?_, ?_, ?_⟩
  · rw [hpages, hjoin]
    exact sortedFiltered_perm events q
  · rw [hpages, hjoin]
    exact sortedFiltered_pairwise_lt events q hk
  · rw [hpages]
    exact hne
  · rw [hpages]
    exact hlast
  · rw [hpages]
    exact hfull

theorem getBidEvents_pagination_complete_witness :
    (1 ≤ exQuery.limit) ∧ ((exEvents.map (fun e => e.id)).Nodup) ∧
    ((((bidEventPages exEvents exQuery).map Prod.fst).flatten).Perm
        (exEvents.filter (matchesFilter exQuery)) ∧
     List.Pairwise (fun a b => orderLtB exQuery a b = true)
       (((bidEventPages exEvents exQuery).map Prod.fst).flatten) ∧
     bidEventPages exEvents exQuery ≠ [] ∧
     (∀ pr, (bidEventPages exEvents exQuery).getLast? = some pr →
        pr.1.length < exQuery.limit ∧ pr.2 = none) ∧
     (∀ pr ∈ (bidEventPages exEvents exQuery).dropLast,
        pr.1.length = exQuery.limit ∧ pr.2 ≠ none)) :=
  ⟨by decide, by decide,
   getBidEvents_pagination_complete exEvents exQuery (by decide) (by decide)⟩

/-! ## Replay analysis of the metadata-index-write worker -/

theorem widenInfo_absorb {i : Option RangeInfo} {w : Int} (h : widenInfo i w = i)
    (v : Int) : widenInfo (widenInfo i v) w = widenInfo i v := by
  cases i with
  | none => rfl
  | some r =>
    obtain ⟨lo, hi⟩ := r
    simp only [widenInfo, Option.some.injEq, RangeInfo.mk.injEq] at h ⊢
    obtain ⟨h1, h2⟩ := h
    constructor
    · split_ifs at h1 ⊢ <;> omega
    · split_ifs at h2 ⊢ <;> omega

theorem widenInfo_self_absorb (i : Option RangeInfo) (v : Int) :
    widenInfo (widenInfo i v) v = widenInfo i v := by
  cases i with
  | none => rfl
  | some r =>
    obtain ⟨lo, hi⟩ := r
    simp only [widenInfo, Option.some.injEq, RangeInfo.mk.injEq]
    constructor
    · split_ifs <;> omega
    · split_ifs <;> omega

theorem keyUpdatedRow_info (r : AttributeKeyRow) (v : Int) :
    (keyUpdatedRow r v).info
      = if r.kind == "number" then widenInfo r.info v else none := rfl

theorem keyUpdatedRow_eq_self_iff (r : AttributeKeyRow) (v : Int) :
    keyUpdatedRow r v = r ↔
      (if r.kind == "number" then widenInfo r.info v else none) = r.info := by
  unfold keyUpdatedRow
  constructor
  · intro h
    exact congrArg AttributeKeyRow.info h
  · intro h
    cases r
    simp only at h ⊢
    rw [h]

theorem keyUpdatedRow_kind (r : AttributeKeyRow) (v : Int) :
    (keyUpdatedRow r v).kind = r.kind := rfl

theorem keyUpdatedRow_id (r : AttributeKeyRow) (v : Int) :
    (keyUpdatedRow r v).id = r.id := rfl

theorem keyUpdatedRow_idem (r : AttributeKeyRow) (v w : Int)
    (h : keyUpdatedRow r w = r) :
    keyUpdatedRow (keyUpdatedRow r v) w = keyUpdatedRow r v := by
  rw [keyUpdatedRow_eq_self_iff] at h ⊢
  rw [keyUpdatedRow_kind, keyUpdatedRow_info]
  cases hkind : r.kind == "number" with
  | false => simp
  | true =>
    rw [hkind] at h
    simp only [reduceIte] at h ⊢
    exact widenInfo_absorb h v

theorem keyUpdatedRow_self_absorb (r : AttributeKeyRow) (v : Int) :
    keyUpdatedRow (keyUpdatedRow r v) v = keyUpdatedRow r v := by
  rw [keyUpdatedRow_eq_self_iff, keyUpdatedRow_kind, keyUpdatedRow_info]
  cases hkind : r.kind == "number" with
  | false => simp
  | true =>
    simp only [reduceIte]
    exact widenInfo_self_absorb r.info v

theorem mem_updateSampleImages (l : List String) (img : String) :
    img ∈ updateSampleImages l img := by
  unfold updateSampleImages
  by_cases hmem : img ∈ l
  · have hc : l.contains img = true := by simpa using hmem
    rw [hc]
    simp [hmem]
  · have hc : l.contains img = false := by simpa using hmem
    rw [hc]
    by_cases hl : l.length < 4
    · rw [if_pos (by simp [hl])]
      exact List.mem_cons_self _ _
    · rw [if_neg (by simp [hl]), if_pos (by simp; omega)]
      cases hget : l[3]? with
      | none => exact List.mem_cons_self _ _
      | some x => exact List.mem_cons_self _ _

theorem updateSampleImages_of_mem {l : List String} {img : String} (h : img ∈ l) :
    updateSampleImages l img = l := by
  have hc : l.contains img = true := by simpa using h
  unfold updateSampleImages
  rw [hc]
  simp

theorem attributeKeySelect_keys_congr {d1 d2 : Db}
    (h : d2.attributeKeys = d1.attributeKeys) (c k : String) :
    attributeKeySelect d2 c k = attributeKeySelect d1 c k := by
  unfold attributeKeySelect
  rw [h]

theorem attributeLookup_attrs_congr {d1 d2 : Db}
    (h : d2.attributes = d1.attributes) (kid : Nat) (v : Int) :
    attributeLookup d2 kid v = attributeLookup d1 kid v := by
  unfold attributeLookup
  rw [h]

theorem find?_shape_congr :
    ∀ (l1 l2 : List AttributeRow), l1.map attrShape = l2.map attrShape →
      ∀ (kid : Nat) (v : Int),
        (l1.find? (aMatch kid v)).map (fun r => r.id)
          = (l2.find? (aMatch kid v)).map (fun r => r.id) := by
  intro l1
  induction l1 with
  | nil =>
    intro l2 h kid v
    cases l2 with
    | nil => rfl
    | cons y t2 => simp [attrShape] at h
  | cons x t1 ih =>
    intro l2 h kid v
    cases l2 with
    | nil => simp [attrShape] at h
    | cons y t2 =>
      simp only [List.map_cons, List.cons.injEq] at h
      obtain ⟨hxy, ht⟩ := h
      have hid : x.id = y.id := congrArg (fun s => s.1) hxy
      have hkid : x.attributeKeyId = y.attributeKeyId := congrArg (fun s => s.2.1) hxy
      have hv : x.value = y.value := congrArg (fun s => s.2.2.1) hxy
      have hmatch : aMatch kid v x = aMatch kid v y := by
        unfold aMatch
        rw [hkid, hv]
      simp only [List.find?]
      rw [hmatch]
      cases hm : aMatch kid v y with
      | false => exact ih t2 ht kid v
      | true => simp [hid]

theorem attributeLookup_shape_congr {d1 d2 : Db}
    (h : d2.attributes.map attrShape = d1.attributes.map attrShape)
    (kid : Nat) (v : Int) :
    attributeLookup d2 kid v = attributeLookup d1 kid v :=
  find?_shape_congr _ _ h kid v

theorem shape_mem_transfer {l1 l2 : List AttributeRow}
    (h : l2.map attrShape = l1.map attrShape) {ar : AttributeRow} (har : ar ∈ l2) :
    ∃ ar1 ∈ l1, attrShape ar1 = attrShape ar := by
  have : attrShape ar ∈ l2.map attrShape := List.mem_map.mpr ⟨ar, har, rfl⟩
  rw [h] at this
  obtain ⟨ar1, h1, h2⟩ := List.mem_map.mp this
  exact ⟨ar1, h1, h2⟩

theorem attrReady_congr {d1 d2 : Db} (hkeys : d2.attributeKeys = d1.attributeKeys)
    (hattrs : d2.attributes.map attrShape = d1.attributes.map attrShape)
    (job : TokenMetadataInfo) (b : JobAttribute) (h : attrReady d1 job b) :
    attrReady d2 job b := by
  obtain ⟨habsorb, kid, hsel, aid, hlook, himg⟩ := h
  refine ⟨?_, kid, ?_, aid, ?_, ?_⟩
  · rw [hkeys]
    exact habsorb
  · rw [attributeKeySelect_keys_congr hkeys]
    exact hsel
  · rw [attributeLookup_shape_congr hattrs]
    exact hlook
  · intro ar har hid im him
    obtain ⟨ar1, har1, hshape⟩ := shape_mem_transfer hattrs har
    have hid1 : ar1.id = aid := by
      have := congrArg (fun s => s.1) hshape
      simp only [attrShape] at this
      rw [this, hid]
    have hsam : ar1.sampleImages = ar.sampleImages := by
      have := congrArg (fun s => s.2.2.2.2.2.2) hshape
      simpa [attrShape] using this
    rw [← hsam]
    exact himg ar1 har1 hid1 im him

theorem resolvedAttrId_congr {d1 d2 : Db}
    (hkeys : d2.attributeKeys = d1.attributeKeys)
    (hattrs : d2.attributes.map attrShape = d1.attributes.map attrShape)
    (c : String) (b : JobAttribute) :
    resolvedAttrId d2 c b = resolvedAttrId d1 c b := by
  unfold resolvedAttrId
  rw [attributeKeySelect_keys_congr hkeys]
  cases attributeKeySelect d1 c b.key with
  | none => rfl
  | some kid => exact attributeLookup_shape_congr hattrs kid b.value

theorem attrReady_resolvedAttrId {d : Db} {job : TokenMetadataInfo} {b : JobAttribute}
    (h : attrReady d job b) : ∃ aid, resolvedAttrId d job.collection b = some aid := by
  obtain ⟨-, kid, hsel, aid, hlook, -⟩ := h
  refine ⟨aid, ?_⟩
  unfold resolvedAttrId
  rw [hsel]
  exact hlook

theorem attributeKeySelect_find?_none {d : Db} {c k : String}
    (h : attributeKeySelect d c k = none) :
    d.attributeKeys.find? (kMatch c k) = none := by
  unfold attributeKeySelect at h
  cases hf : d.attributeKeys.find? (kMatch c k) with
  | none => rfl
  | some r =>
    rw [hf] at h
    simp at h

theorem attributeKeyUpdate_snd_of_none (d : Db) (c k : String) (v : Int)
    (hsel : attributeKeySelect d c k = none) : (attributeKeyUpdate d c k v).2 = d := by
  unfold attributeKeyUpdate
  have hmap : d.attributeKeys.map
      (fun r => if kMatch c k r then keyUpdatedRow r v else r) = d.attributeKeys := by
    apply list_map_id_of_eq
    intro r hr
    rw [if_neg]
    have hnone := List.find?_eq_none.mp (attributeKeySelect_find?_none hsel) r hr
    simpa using hnone
  rw [hmap]

theorem attributeKeySelect_map_congr (d : Db) (f : AttributeKeyRow → AttributeKeyRow)
    (hid : ∀ r, (f r).id = r.id) (hcol : ∀ r, (f r).collectionId = r.collectionId)
    (hkey : ∀ r, (f r).key = r.key) (c2 k2 : String) :
    attributeKeySelect { d with attributeKeys := d.attributeKeys.map f } c2 k2
      = attributeKeySelect d c2 k2 := by
  unfold attributeKeySelect
  show ((d.attributeKeys.map f).find? (kMatch c2 k2)).map (fun r => r.id) = _
  rw [find?_map_invariant _ f _ (fun r => by unfold kMatch; rw [hcol, hkey])]
  cases hfind : d.attributeKeys.find? (kMatch c2 k2) <;> simp [hid]

theorem keyUpdatedRow_new_absorb (c k kind : String) (rank : Option Nat) (v : Int)
    (nid : Nat) :
    keyUpdatedRow
      { id := nid, collectionId := c, key := k, kind := kind, rank := rankOrNull rank,
        info := if kind == "number" then some { minRange := v, maxRange := v } else none,
        attributeCount := 0 } v
      = { id := nid, collectionId := c, key := k, kind := kind, rank := rankOrNull rank,
          info := if kind == "number" then some { minRange := v, maxRange := v } else none,
          attributeCount := 0 } := by
  rw [keyUpdatedRow_eq_self_iff]
  show (if kind == "number"
      then widenInfo (if kind == "number"
             then some { minRange := v, maxRange := v } else none) v
      else none) = _
  cases hkind : kind == "number" with
  | false => simp
  | true =>
    simp only [reduceIte]
    simp [widenInfo]

theorem resolveAttributeKey_spec (d : Db) (c k kind : String) (rank : Option Nat)
    (v : Int) (hwf : dbWf d) :
    ∃ kid d1, resolveAttributeKey d c k kind rank v = .ok (kid, d1) ∧
      d1.attributes = d.attributes ∧
      d1.tokenAttributes = d.tokenAttributes ∧
      d1.tokens = d.tokens ∧
      d1.nextAttributeId = d.nextAttributeId ∧
      dbWf d1 ∧
      attributeKeySelect d1 c k = some kid ∧
      (∀ r ∈ d1.attributeKeys, kMatch c k r = true → keyUpdatedRow r v = r) ∧
      (∀ k2, attributeKeySelect d c k2 ≠ none →
         attributeKeySelect d1 c k2 = attributeKeySelect d c k2) ∧
      (∀ k2 w, attributeKeySelect d c k2 ≠ none →
         (∀ r ∈ d.attributeKeys, kMatch c k2 r = true → keyUpdatedRow r w = r) →
         (∀ r ∈ d1.attributeKeys, kMatch c k2 r = true → keyUpdatedRow r w = r)) := by
  unfold resolveAttributeKey resolveAttributeKeyRaced attributeKeyUpdate
  cases hsel : attributeKeySelect d c k with
  | some kid0 =>
    refine ⟨kid0, _, rfl, rfl, rfl, rfl, rfl, ?_, ?_, ?_, ?_, ?_⟩
    · constructor
      · intro r hr
        obtain ⟨r0, hr0, hfr⟩ := List.mem_map.mp hr
        have hid : r.id = r0.id := by
          rw [← hfr]
          by_cases hm : kMatch c k r0 = true <;> simp [hm, keyUpdatedRow_id]
        rw [hid]
        exact hwf.1 r0 hr0
      · exact hwf.2
    · rw [attributeKeySelect_map_congr d _
        (fun r => by by_cases hm : kMatch c k r = true <;> simp [hm, keyUpdatedRow_id])
        (fun r => by by_cases hm : kMatch c k r = true <;> simp [hm] <;> rfl)
        (fun r => by by_cases hm : kMatch c k r = true <;> simp [hm] <;> rfl)]
      exact hsel
    · intro r hr hm
      obtain ⟨r0, hr0, hfr⟩ := List.mem_map.mp hr
      have hm0 : kMatch c k r0 = true := by
        rw [← hfr] at hm
        by_cases h0 : kMatch c k r0 = true
        · exact h0
        · rw [if_neg h0] at hm
          exact absurd hm h0
      rw [← hfr, if_pos hm0]
      exact keyUpdatedRow_self_absorb r0 v
    · intro k2 _
      exact attributeKeySelect_map_congr d _
        (fun r => by by_cases hm : kMatch c k r = true <;> simp [hm, keyUpdatedRow_id])
        (fun r => by by_cases hm : kMatch c k r = true <;> simp [hm] <;> rfl)
        (fun r => by by_cases hm : kMatch c k r = true <;> simp [hm] <;> rfl) c k2
    · intro k2 w _ habs r hr hm
      obtain ⟨r0, hr0, hfr⟩ := List.mem_map.mp hr
      have hm0 : kMatch c k2 r0 = true := by
        rw [← hfr] at hm
        by_cases h0 : kMatch c k r0 = true
        · rw [if_pos h0] at hm
          unfold kMatch at hm ⊢
          unfold keyUpdatedRow at hm
          simpa using hm
        · rw [if_neg h0] at hm
          exact hm
      by_cases h0 : kMatch c k r0 = true
      · rw [← hfr, if_pos h0]
        exact keyUpdatedRow_idem r0 v w (habs r0 hr0 hm0)
      · rw [← hfr, if_neg h0]
        exact habs r0 hr0 hm0
  | none =>
    have hmap : d.attributeKeys.map
        (fun r => if kMatch c k r = true then keyUpdatedRow r v else r)
        = d.attributeKeys := by
      apply list_map_id_of_eq
      intro r hr
      rw [if_neg]
      have hnone := List.find?_eq_none.mp (attributeKeySelect_find?_none hsel) r hr
      simpa using hnone
    rw [hmap]
    have hany : d.attributeKeys.any (kMatch c k) = false := by
      have hnone := attributeKeySelect_find?_none hsel
      rw [List.find?_eq_none] at hnone
      cases ha : d.attributeKeys.any (kMatch c k) with
      | false => rfl
      | true =>
        obtain ⟨x, hx, hpx⟩ := List.any_eq_true.mp ha
        exact absurd hpx (hnone x hx)
    dsimp only
    unfold attributeKeyInsert
    dsimp only
    rw [hany]
    simp only [Bool.false_eq_true, if_false]
    refine ⟨d.nextAttributeKeyId, _, rfl, rfl, rfl, rfl, rfl, ?_, ?_, ?_, ?_, ?_⟩
    · constructor
      · intro r hr
        dsimp only at hr ⊢
        rcases List.mem_append.mp hr with hr | hr
        · have := hwf.1 r hr
          omega
        · simp only [List.mem_singleton] at hr
          rw [hr]
          dsimp only
          omega
      · exact hwf.2
    · unfold attributeKeySelect
      dsimp only
      rw [List.find?_append, attributeKeySelect_find?_none hsel]
      simp [kMatch]
    · intro r hr hm
      dsimp only at hr
      rcases List.mem_append.mp hr with hr | hr
      · have hnone := List.find?_eq_none.mp (attributeKeySelect_find?_none hsel) r hr
        exact absurd hm (by simpa using hnone)
      · simp only [List.mem_singleton] at hr
        rw [hr]
        exact keyUpdatedRow_new_absorb c k kind rank v d.nextAttributeKeyId
    · intro k2 hk2
      unfold attributeKeySelect
      dsimp only
      rw [List.find?_append]
      cases hf : d.attributeKeys.find? (kMatch c k2) with
      | some r => rfl
      | none =>
        exact absurd (by unfold attributeKeySelect; rw [hf]; rfl) hk2
    · intro k2 w hk2 habs r hr hm
      dsimp only at hr
      rcases List.mem_append.mp hr with hr | hr
      · exact habs r hr hm
      · simp only [List.mem_singleton] at hr
        rw [hr] at hm
        unfold kMatch at hm
        simp only [Bool.and_eq_true, beq_iff_eq] at hm
        have hkk : k2 = k := hm.2.symm
        rw [hkk] at hk2
        exact absurd hsel hk2

theorem select_list_map_congr (l : List AttributeKeyRow)
    (f : AttributeKeyRow → AttributeKeyRow) (hid : ∀ r, (f r).id = r.id)
    (hcol : ∀ r, (f r).collectionId = r.collectionId)
    (hkey : ∀ r, (f r).key = r.key) (c2 k2 : String) :
    ((l.map f).find? (kMatch c2 k2)).map (fun r => r.id)
      = (l.find? (kMatch c2 k2)).map (fun r => r.id) := by
  rw [find?_map_invariant _ f _ (fun r => by unfold kMatch; rw [hcol, hkey])]
  cases hfind : l.find? (kMatch c2 k2) <;> simp [hid]

theorem lookup_list_map_congr (l : List AttributeRow) (g : AttributeRow → AttributeRow)
    (hid : ∀ r, (g r).id = r.id) (hkid : ∀ r, (g r).attributeKeyId = r.attributeKeyId)
    (hv : ∀ r, (g r).value = r.value) (kid : Nat) (v : Int) :
    ((l.map g).find? (aMatch kid v)).map (fun r => r.id)
      = (l.find? (aMatch kid v)).map (fun r => r.id) := by
  rw [find?_map_invariant _ g _ (fun r => by unfold aMatch; rw [hkid, hv])]
  cases hfind : l.find? (aMatch kid v) <;> simp [hid]

theorem linkTokenAttribute_effects (d : Db) (job : TokenMetadataInfo)
    (a : JobAttribute) (aid : Nat) :
    (linkTokenAttribute d job a aid).attributeKeys = d.attributeKeys ∧
    (linkTokenAttribute d job a aid).tokens = d.tokens ∧
    (linkTokenAttribute d job a aid).nextAttributeKeyId = d.nextAttributeKeyId ∧
    (linkTokenAttribute d job a aid).nextAttributeId = d.nextAttributeId ∧
    (linkTokenAttribute d job a aid).tokenAttributes
      = linkStep job a aid d.tokenAttributes := by
  unfold linkTokenAttribute linkStep mkLinkRow linkConflict tokenAttrConflict
  by_cases hc : d.tokenAttributes.any (fun r =>
      r.contract == job.contract && r.tokenId == job.tokenId && r.attributeId == aid) = true <;>
    simp [hc]

theorem linkTokenAttribute_wf (d : Db) (job : TokenMetadataInfo) (a : JobAttribute)
    (aid : Nat) (hwf : dbWf d) : dbWf (linkTokenAttribute d job a aid) := by
  constructor
  · rw [(linkTokenAttribute_effects d job a aid).1,
      (linkTokenAttribute_effects d job a aid).2.2.1]
    exact hwf.1
  · rw [linkTokenAttribute_attributes, (linkTokenAttribute_effects d job a aid).2.2.2.1]
    intro r hr
    obtain ⟨r0, hr0, hfr⟩ := List.mem_map.mp hr
    have hid : r.id = r0.id := by
      rw [← hfr]
      by_cases hm : (r0.id == aid) = true <;> simp [hm]
    rw [hid]
    exact hwf.2 r0 hr0

theorem attributeLookup_link_congr (d : Db) (job : TokenMetadataInfo)
    (a : JobAttribute) (aid kid2 : Nat) (v2 : Int) :
    attributeLookup (linkTokenAttribute d job a aid) kid2 v2
      = attributeLookup d kid2 v2 := by
  unfold attributeLookup
  rw [linkTokenAttribute_attributes]
  apply lookup_list_map_congr
  · intro r
    by_cases hm : (r.id == aid) = true <;> simp [hm]
  · intro r
    by_cases hm : (r.id == aid) = true <;> simp [hm] <;> rfl
  · intro r
    by_cases hm : (r.id == aid) = true <;> simp [hm] <;> rfl

theorem linkTokenAttribute_samples (d : Db) (job : TokenMetadataInfo)
    (a : JobAttribute) (aid aid2 : Nat)
    (hprev : ∀ ar ∈ d.attributes, ar.id = aid2 →
       ∀ im, job.imageUrl = some im → im ∈ ar.sampleImages) :
    ∀ ar ∈ (linkTokenAttribute d job a aid).attributes, ar.id = aid2 →
      ∀ im, job.imageUrl = some im → im ∈ ar.sampleImages := by
  intro ar har hid im him
  rw [linkTokenAttribute_attributes] at har
  obtain ⟨r0, hr0, hfr⟩ := List.mem_map.mp har
  by_cases hm : (r0.id == aid) = true
  · rw [if_pos hm] at hfr
    rw [← hfr]
    show im ∈ (match job.imageUrl with
      | some img => updateSampleImages r0.sampleImages img
      | none => r0.sampleImages)
    rw [him]
    exact mem_updateSampleImages r0.sampleImages im
  · rw [if_neg hm] at hfr
    rw [← hfr]
    exact hprev r0 hr0 (by rw [← hfr] at hid; exact hid) im him

theorem linkTokenAttribute_samples_self (d : Db) (job : TokenMetadataInfo)
    (a : JobAttribute) (aid : Nat) :
    ∀ ar ∈ (linkTokenAttribute d job a aid).attributes, ar.id = aid →
      ∀ im, job.imageUrl = some im → im ∈ ar.sampleImages := by
  intro ar har hid im him
  rw [linkTokenAttribute_attributes] at har
  obtain ⟨r0, hr0, hfr⟩ := List.mem_map.mp har
  by_cases hm : (r0.id == aid) = true
  · rw [if_pos hm] at hfr
    rw [← hfr]
    show im ∈ (match job.imageUrl with
      | some img => updateSampleImages r0.sampleImages img
      | none => r0.sampleImages)
    rw [him]
    exact mem_updateSampleImages r0.sampleImages im
  · rw [if_neg hm] at hfr
    rw [← hfr] at hid
    rw [hid] at hm
    simp at hm

theorem link_stage_spec (d : Db) (job : TokenMetadataInfo) (a : JobAttribute)
    (aid kid : Nat) (hwf : dbWf d)
    (hsel : attributeKeySelect d job.collection a.key = some kid)
    (hlook : attributeLookup d kid a.value = some aid)
    (habs : ∀ r ∈ d.attributeKeys, kMatch job.collection a.key r = true →
       keyUpdatedRow r a.value = r) :
    dbWf (linkTokenAttribute d job a aid) ∧
    (linkTokenAttribute d job a aid).tokens = d.tokens ∧
    attrReady (linkTokenAttribute d job a aid) job a ∧
    (∀ b, attrReady d job b → attrReady (linkTokenAttribute d job a aid) job b) ∧
    (∀ b x, resolvedAttrId d job.collection b = some x →
       resolvedAttrId (linkTokenAttribute d job a aid) job.collection b = some x) ∧
    resolvedAttrId (linkTokenAttribute d job a aid) job.collection a = some aid ∧
    (linkTokenAttribute d job a aid).tokenAttributes
      = linkStep job a aid d.tokenAttributes := by
  have heff := linkTokenAttribute_effects d job a aid
  have hselc : ∀ c2 k2, attributeKeySelect (linkTokenAttribute d job a aid) c2 k2
      = attributeKeySelect d c2 k2 := fun c2 k2 =>
    attributeKeySelect_keys_congr heff.1 c2 k2
  have hlookc : ∀ kid2 v2, attributeLookup (linkTokenAttribute d job a aid) kid2 v2
      = attributeLookup d kid2 v2 := attributeLookup_link_congr d job a aid
  have hresc : ∀ b, resolvedAttrId (linkTokenAttribute d job a aid) job.collection b
      = resolvedAttrId d job.collection b := by
    intro b
    unfold resolvedAttrId
    rw [hselc]
    cases attributeKeySelect d job.collection b.key with
    | none => rfl
    | some kid2 => exact hlookc kid2 b.value
  refine ⟨linkTokenAttribute_wf d job a aid hwf, heff.2.1, ?_, ?_, ?_, ?_, heff.2.2.2.2⟩
  · refine ⟨?_, kid, ?_, aid, ?_, ?_⟩
    · rw [heff.1]
      exact habs
    · rw [hselc]
      exact hsel
    · rw [hlookc]
      exact hlook
    · exact linkTokenAttribute_samples_self d job a aid
  · intro b hb
    obtain ⟨hbabs, kidb, hbsel, aidb, hblook, hbimg⟩ := hb
    refine ⟨?_, kidb, ?_, aidb, ?_, ?_⟩
    · rw [heff.1]
      exact hbabs
    · rw [hselc]
      exact hbsel
    · rw [hlookc]
      exact hblook
    · exact linkTokenAttribute_samples d job a aid aidb hbimg
  · intro b x hx
    rw [hresc]
    exact hx
  · rw [hresc]
    unfold resolvedAttrId
    rw [hsel]
    exact hlook

theorem keyUpdatedRow_count_irrel (r : AttributeKeyRow) (n : Nat) (w : Int)
    (h : keyUpdatedRow r w = r) :
    keyUpdatedRow { r with attributeCount := n } w = { r with attributeCount := n } := by
  rw [keyUpdatedRow_eq_self_iff] at h ⊢
  exact h

theorem attributeLookup_find?_none {d : Db} {kid : Nat} {v : Int}
    (h : attributeLookup d kid v = none) :
    d.attributes.find? (aMatch kid v) = none := by
  unfold attributeLookup at h
  cases hf : d.attributes.find? (aMatch kid v) with
  | none => rfl
  | some r =>
    rw [hf] at h
    simp at h

theorem attributeInsertCte_spec (d : Db) (kid : Nat) (v : Int) (c kind k : String)
    (hlook : attributeLookup d kid v = none)
    (hkid : d.attributeKeys.any (fun r => r.id == kid) = true) :
    attributeInsertCte d kid v c kind k
      = (some d.nextAttributeId,
         { d with
             attributes := d.attributes ++
               [{ id := d.nextAttributeId, attributeKeyId := kid, value := v,
                  collectionId := c, kind := kind, key := k, tokenCount := 0,
                  sampleImages := [] }],
             nextAttributeId := d.nextAttributeId + 1,
             attributeKeys := d.attributeKeys.map (fun r =>
               if r.id == kid then { r with attributeCount := r.attributeCount + 1 }
               else r) }) := by
  have hconf : d.attributes.any (aMatch kid v) = false := by
    have hnone := attributeLookup_find?_none hlook
    rw [List.find?_eq_none] at hnone
    cases ha : d.attributes.any (aMatch kid v) with
    | false => rfl
    | true =>
      obtain ⟨x, hx, hpx⟩ := List.any_eq_true.mp ha
      exact absurd hpx (hnone x hx)
  unfold attributeInsertCte
  rw [hconf]
  simp only [Bool.false_eq_true, if_false]
  rw [hkid]
  rfl

theorem attributeLookup_some_elim {d : Db} {kid : Nat} {v : Int} {aid : Nat}
    (h : attributeLookup d kid v = some aid) :
    ∃ rb ∈ d.attributes, rb.id = aid := by
  unfold attributeLookup at h
  cases hf : d.attributes.find? (aMatch kid v) with
  | none =>
    rw [hf] at h
    exact Option.noConfusion h
  | some rb =>
    rw [hf] at h
    simp only [Option.map_some', Option.some.injEq] at h
    exact ⟨rb, List.mem_of_find?_eq_some hf, h⟩

theorem attributeKeySelect_some_elim {d : Db} {c k : String} {kid : Nat}
    (h : attributeKeySelect d c k = some kid) :
    ∃ rb ∈ d.attributeKeys, rb.id = kid := by
  unfold attributeKeySelect at h
  cases hf : d.attributeKeys.find? (kMatch c k) with
  | none =>
    rw [hf] at h
    exact Option.noConfusion h
  | some rb =>
    rw [hf] at h
    simp only [Option.map_some', Option.some.injEq] at h
    exact ⟨rb, List.mem_of_find?_eq_some hf, h⟩

theorem cte_stage_spec (d1 d2 : Db) (kid : Nat) (a : JobAttribute)
    (job : TokenMetadataInfo) (hwf1 : dbWf d1)
    (hsel1 : attributeKeySelect d1 job.collection a.key = some kid)
    (habs1 : ∀ r ∈ d1.attributeKeys, kMatch job.collection a.key r = true →
       keyUpdatedRow r a.value = r)
    (hlook1 : attributeLookup d1 kid a.value = none)
    (hattrs : d2.attributes = d1.attributes ++
       [{ id := d1.nextAttributeId, attributeKeyId := kid, value := a.value,
          collectionId := job.collection, kind := a.kind, key := a.key,
          tokenCount := 0, sampleImages := [] }])
    (hkeys : d2.attributeKeys = d1.attributeKeys.map (fun r =>
       if r.id == kid then { r with attributeCount := r.attributeCount + 1 } else r))
    (htA : d2.tokenAttributes = d1.tokenAttributes)
    (hnid : d2.nextAttributeId = d1.nextAttributeId + 1)
    (hnkid : d2.nextAttributeKeyId = d1.nextAttributeKeyId) :
    dbWf d2 ∧
    attributeKeySelect d2 job.collection a.key = some kid ∧
    (∀ r ∈ d2.attributeKeys, kMatch job.collection a.key r = true →
       keyUpdatedRow r a.value = r) ∧
    attributeLookup d2 kid a.value = some d1.nextAttributeId ∧
    (∀ b, attrReady d1 job b → attrReady d2 job b) ∧
    (∀ b x, resolvedAttrId d1 job.collection b = some x →
       resolvedAttrId d2 job.collection b = some x) := by
  have hselc : ∀ c2 k2, attributeKeySelect d2 c2 k2 = attributeKeySelect d1 c2 k2 := by
    intro c2 k2
    unfold attributeKeySelect
    rw [hkeys]
    apply select_list_map_congr
    · intro r
      by_cases hm : (r.id == kid) = true <;> simp [hm]
    · intro r
      by_cases hm : (r.id == kid) = true <;> simp [hm] <;> rfl
    · intro r
      by_cases hm : (r.id == kid) = true <;> simp [hm] <;> rfl
  have hlookc : ∀ kid2 v2 x, attributeLookup d1 kid2 v2 = some x →
      attributeLookup d2 kid2 v2 = some x := by
    intro kid2 v2 x hx
    unfold attributeLookup at hx ⊢
    rw [hattrs, List.find?_append]
    cases hf : d1.attributes.find? (aMatch kid2 v2) with
    | none =>
      rw [hf] at hx
      simp at hx
    | some rb =>
      rw [hf] at hx
      exact hx
  have habs2 : ∀ r ∈ d2.attributeKeys, kMatch job.collection a.key r = true →
      keyUpdatedRow r a.value = r := by
    intro r hr hm
    rw [hkeys] at hr
    obtain ⟨r0, hr0, hfr⟩ := List.mem_map.mp hr
    have hm0 : kMatch job.collection a.key r0 = true := by
      rw [← hfr] at hm
      by_cases h0 : (r0.id == kid) = true
      · rw [if_pos h0] at hm
        unfold kMatch at hm ⊢
        simpa using hm
      · rw [if_neg h0] at hm
        exact hm
    by_cases h0 : (r0.id == kid) = true
    · rw [← hfr, if_pos h0]
      exact keyUpdatedRow_count_irrel r0 _ a.value (habs1 r0 hr0 hm0)
    · rw [← hfr, if_neg h0]
      exact habs1 r0 hr0 hm0
  refine ⟨?_, ?_, habs2, ?_, ?_, ?_⟩
  · constructor
    · intro r hr
      rw [hkeys] at hr
      obtain ⟨r0, hr0, hfr⟩ := List.mem_map.mp hr
      have hid : r.id = r0.id := by
        rw [← hfr]
        by_cases hm : (r0.id == kid) = true <;> simp [hm]
      rw [hid, hnkid]
      exact hwf1.1 r0 hr0
    · intro r hr
      rw [hattrs] at hr
      rw [hnid]
      rcases List.mem_append.mp hr with hr | hr
      · have := hwf1.2 r hr
        omega
      · simp only [List.mem_singleton] at hr
        rw [hr]
        show d1.nextAttributeId < d1.nextAttributeId + 1
        omega
  · rw [hselc]
    exact hsel1
  · unfold attributeLookup
    rw [hattrs, List.find?_append, attributeLookup_find?_none hlook1]
    simp [aMatch]
  · intro b hb
    obtain ⟨hbabs, kidb, hbsel, aidb, hblook, hbimg⟩ := hb
    obtain ⟨rb, hrb, hrbid⟩ := attributeLookup_some_elim hblook
    have haidb : aidb < d1.nextAttributeId := by
      rw [← hrbid]
      exact hwf1.2 rb hrb
    refine ⟨?_, kidb, ?_, aidb, hlookc kidb b.value aidb hblook, ?_⟩
    · intro r hr hm
      rw [hkeys] at hr
      obtain ⟨r0, hr0, hfr⟩ := List.mem_map.mp hr
      have hm0 : kMatch job.collection b.key r0 = true := by
        rw [← hfr] at hm
        by_cases h0 : (r0.id == kid) = true
        · rw [if_pos h0] at hm
          unfold kMatch at hm ⊢
          simpa using hm
        · rw [if_neg h0] at hm
          exact hm
      by_cases h0 : (r0.id == kid) = true
      · rw [← hfr, if_pos h0]
        exact keyUpdatedRow_count_irrel r0 _ b.value (hbabs r0 hr0 hm0)
      · rw [← hfr, if_neg h0]
        exact hbabs r0 hr0 hm0
    · rw [hselc]
      exact hbsel
    · intro ar har hid im him
      rw [hattrs] at har
      rcases List.mem_append.mp har with har | har
      · exact hbimg ar har hid im him
      · simp only [List.mem_singleton] at har
        rw [har] at hid
        simp only [] at hid
        omega
  · intro b x hx
    unfold resolvedAttrId at hx ⊢
    cases hbsel : attributeKeySelect d1 job.collection b.key with
    | none =>
      rw [hbsel] at hx
      simp at hx
    | some kidb =>
      rw [hbsel] at hx
      rw [hselc, hbsel]
      exact hlookc kidb b.value x hx

theorem processAttr_spec (e : Db) (job : TokenMetadataInfo) (a : JobAttribute)
    (hwf : dbWf e) :
    ∃ e2, processAttr e job a = .ok e2 ∧ dbWf e2 ∧ e2.tokens = e.tokens ∧
      attrReady e2 job a ∧
      (∀ b, attrReady e job b → attrReady e2 job b) ∧
      (∀ b x, resolvedAttrId e job.collection b = some x →
         resolvedAttrId e2 job.collection b = some x) ∧
      e2.tokenAttributes = linkStep job a (resolveFn e2 job.collection a)
        e.tokenAttributes := by
  obtain ⟨kid, d1, hres, hattrs1, htA1, htok1, hnid1, hwf1, hsel1, habs1, hselp1, habsp1⟩ :=
    resolveAttributeKey_spec e job.collection a.key a.kind a.rank a.value hwf
  unfold processAttr
  rw [hres]
  have hreadyp1 : ∀ b, attrReady e job b → attrReady d1 job b := by
    intro b hb
    obtain ⟨hbabs, kidb, hbsel, aidb, hblook, hbimg⟩ := hb
    refine ⟨habsp1 b.key b.value (by rw [hbsel]; simp) hbabs, kidb, ?_, aidb, ?_, ?_⟩
    · rw [hselp1 b.key (by rw [hbsel]; simp)]
      exact hbsel
    · rw [attributeLookup_attrs_congr hattrs1]
      exact hblook
    · intro ar har hid im him
      rw [hattrs1] at har
      exact hbimg ar har hid im him
  have hresp1 : ∀ b x, resolvedAttrId e job.collection b = some x →
      resolvedAttrId d1 job.collection b = some x := by
    intro b x hx
    unfold resolvedAttrId at hx ⊢
    cases hbsel : attributeKeySelect e job.collection b.key with
    | none =>
      rw [hbsel] at hx
      exact Option.noConfusion hx
    | some kidb =>
      rw [hbsel] at hx
      have hx2 : attributeLookup e kidb b.value = some x := hx
      rw [hselp1 b.key (by rw [hbsel]; simp), hbsel]
      show attributeLookup d1 kidb b.value = some x
      rw [attributeLookup_attrs_congr hattrs1]
      exact hx2
  dsimp only
  cases hlook : attributeLookup d1 kid a.value with
  | some aid =>
    obtain ⟨hwf2, htok2, hready2, hreadyp2, hresp2, hresa2, htA2⟩ :=
      link_stage_spec d1 job a aid kid hwf1 hsel1 hlook habs1
    refine ⟨linkTokenAttribute d1 job a aid, rfl, hwf2, by rw [htok2, htok1], hready2,
      ?_, ?_, ?_⟩
    · intro b hb
      exact hreadyp2 b (hreadyp1 b hb)
    · intro b x hx
      exact hresp2 b x (hresp1 b x hx)
    · rw [htA2, htA1]
      have hfn : resolveFn (linkTokenAttribute d1 job a aid) job.collection a = aid := by
        unfold resolveFn
        rw [hresa2]
        rfl
      rw [hfn]
  | none =>
    have hkidany : d1.attributeKeys.any (fun r => r.id == kid) = true := by
      obtain ⟨rb, hrb, hrbid⟩ := attributeKeySelect_some_elim hsel1
      exact List.any_eq_true.mpr ⟨rb, hrb, by simp [hrbid]⟩
    rw [attributeInsertCte_spec d1 kid a.value job.collection a.kind a.key hlook hkidany]
    obtain ⟨hwf2, hsel2, habs2, hlook2, hreadyp2, hresp2⟩ :=
      cte_stage_spec d1
        { d1 with
            attributes := d1.attributes ++
              [{ id := d1.nextAttributeId, attributeKeyId := kid, value := a.value,
                 collectionId := job.collection, kind := a.kind, key := a.key,
                 tokenCount := 0, sampleImages := [] }],
            nextAttributeId := d1.nextAttributeId + 1,
            attributeKeys := d1.attributeKeys.map (fun r =>
              if r.id == kid then { r with attributeCount := r.attributeCount + 1 }
              else r) }
        kid a job hwf1 hsel1 habs1 hlook rfl rfl rfl rfl rfl
    obtain ⟨hwf3, htok3, hready3, hreadyp3, hresp3, hresa3, htA3⟩ :=
      link_stage_spec
        { d1 with
            attributes := d1.attributes ++
              [{ id := d1.nextAttributeId, attributeKeyId := kid, value := a.value,
                 collectionId := job.collection, kind := a.kind, key := a.key,
                 tokenCount := 0, sampleImages := [] }],
            nextAttributeId := d1.nextAttributeId + 1,
            attributeKeys := d1.attributeKeys.map (fun r =>
              if r.id == kid then { r with attributeCount := r.attributeCount + 1 }
              else r) }
        job a d1.nextAttributeId kid hwf2 hsel2 hlook2 habs2
    refine ⟨_, rfl, hwf3, by rw [htok3]; exact htok1, hready3, ?_, ?_, ?_⟩
    · intro b hb
      exact hreadyp3 b (hreadyp2 b (hreadyp1 b hb))
    · intro b x hx
      exact hresp3 b x (hresp2 b x (hresp1 b x hx))
    · rw [htA3]
      unfold resolveFn
      rw [hresa3]
      show linkStep job a d1.nextAttributeId d1.tokenAttributes
        = linkStep job a d1.nextAttributeId e.tokenAttributes
      rw [htA1]

theorem processAttrs_spec (job : TokenMetadataInfo) :
    ∀ (attrs : List JobAttribute) (e : Db), dbWf e →
    ∃ e2, processAttrs job e attrs = .ok e2 ∧ dbWf e2 ∧ e2.tokens = e.tokens ∧
      (∀ a ∈ attrs, attrReady e2 job a) ∧
      (∀ b, attrReady e job b → attrReady e2 job b) ∧
      (∀ b x, resolvedAttrId e job.collection b = some x →
         resolvedAttrId e2 job.collection b = some x) ∧
      e2.tokenAttributes = linkFold job (resolveFn e2 job.collection)
        e.tokenAttributes attrs := by
  intro attrs
  induction attrs with
  | nil =>
    intro e hwf
    exact ⟨e, rfl, hwf, rfl, by simp, fun b hb => hb, fun b x hx => hx, rfl⟩
  | cons a rest ih =>
    intro e hwf
    obtain ⟨e1, hstep, hwf1, htok1, hready1, hreadyp1, hresp1, htA1⟩ :=
      processAttr_spec e job a hwf
    obtain ⟨e2, hrest, hwf2, htok2, hready2, hreadyp2, hresp2, htA2⟩ := ih e1 hwf1
    refine ⟨e2, ?_, hwf2, by rw [htok2, htok1], ?_, ?_, ?_, ?_⟩
    · simp only [processAttrs]
      rw [hstep]
      exact hrest
    · intro a2 ha2
      rcases List.mem_cons.mp ha2 with ha2 | ha2
      · rw [ha2]
        exact hreadyp2 a hready1
      · exact hready2 a2 ha2
    · intro b hb
      exact hreadyp2 b (hreadyp1 b hb)
    · intro b x hx
      exact hresp2 b x (hresp1 b x hx)
    · rw [htA2, htA1]
      obtain ⟨aid, haid⟩ := attrReady_resolvedAttrId hready1
      have h2 : resolvedAttrId e2 job.collection a = some aid := hresp2 a aid haid
      have hfn : resolveFn e1 job.collection a = resolveFn e2 job.collection a := by
        unfold resolveFn
        rw [haid, h2]
      rw [hfn]
      rfl

theorem processAttr_replay (e : Db) (job : TokenMetadataInfo) (a : JobAttribute)
    (hready : attrReady e job a) :
    ∃ e2, processAttr e job a = .ok e2 ∧
      e2.attributeKeys = e.attributeKeys ∧
      e2.attributes.map attrShape = e.attributes.map attrShape ∧
      e2.tokens = e.tokens ∧
      e2.tokenAttributes = linkStep job a (resolveFn e job.collection a)
        e.tokenAttributes := by
  obtain ⟨habs, kid, hsel, aid, hlook, himg⟩ := hready
  have hmap : e.attributeKeys.map
      (fun r => if kMatch job.collection a.key r = true then keyUpdatedRow r a.value else r)
      = e.attributeKeys := by
    apply list_map_id_of_eq
    intro r hr
    by_cases hm : kMatch job.collection a.key r = true
    · rw [if_pos hm]
      exact habs r hr hm
    · rw [if_neg hm]
  unfold processAttr resolveAttributeKey resolveAttributeKeyRaced attributeKeyUpdate
  rw [hsel]
  have hlit : ({ e with attributeKeys := e.attributeKeys.map (fun r => if kMatch job.collection a.key r = true then keyUpdatedRow r a.value else r) } : Db) = e := by
    rw [hmap]
  rw [hlit]
  dsimp only
  rw [hlook]
  have heff := linkTokenAttribute_effects e job a aid
  refine ⟨linkTokenAttribute e job a aid, rfl, heff.1, ?_, heff.2.1, ?_⟩
  · rw [linkTokenAttribute_attributes, List.map_map]
    apply List.map_congr_left
    intro r hr
    show attrShape (if r.id == aid then _ else r) = attrShape r
    by_cases hm : (r.id == aid) = true
    · rw [if_pos hm]
      unfold attrShape
      simp only []
      have hsam : (match job.imageUrl with
          | some img => updateSampleImages r.sampleImages img
          | none => r.sampleImages) = r.sampleImages := by
        cases him2 : job.imageUrl with
        | none => rfl
        | some im =>
          exact updateSampleImages_of_mem
            (himg r hr (by simpa using hm) im him2)
      rw [hsam]
    · rw [if_neg hm]
  · rw [heff.2.2.2.2]
    have hfn : resolveFn e job.collection a = aid := by
      unfold resolveFn resolvedAttrId
      rw [hsel]
      show (attributeLookup e kid a.value).getD 0 = aid
      rw [hlook]
      rfl
    rw [hfn]

theorem processAttrs_replay (job : TokenMetadataInfo) :
    ∀ (attrs : List JobAttribute) (e : Db),
      (∀ a ∈ attrs, attrReady e job a) →
      ∃ e2, processAttrs job e attrs = .ok e2 ∧
        e2.attributeKeys = e.attributeKeys ∧
        e2.attributes.map attrShape = e.attributes.map attrShape ∧
        e2.tokens = e.tokens ∧
        e2.tokenAttributes = linkFold job (resolveFn e job.collection)
          e.tokenAttributes attrs := by
  intro attrs
  induction attrs with
  | nil =>
    intro e h
    exact ⟨e, rfl, rfl, rfl, rfl, rfl⟩
  | cons a rest ih =>
    intro e h
    obtain ⟨e1, hstep, hkeys1, hshape1, htok1, htA1⟩ :=
      processAttr_replay e job a (h a (by simp))
    have hready1 : ∀ b ∈ rest, attrReady e1 job b := fun b hb =>
      attrReady_congr hkeys1 hshape1 job b (h b (by simp [hb]))
    obtain ⟨e2, hrest, hkeys2, hshape2, htok2, htA2⟩ := ih e1 hready1
    refine ⟨e2, ?_, by rw [hkeys2, hkeys1], by rw [hshape2, hshape1],
      by rw [htok2, htok1], ?_⟩
    · simp only [processAttrs]
      rw [hstep]
      exact hrest
    · rw [htA2, htA1]
      have hres : resolveFn e1 job.collection = resolveFn e job.collection := by
        funext b
        unfold resolveFn
        rw [resolvedAttrId_congr hkeys1 hshape1]
      rw [hres]
      rfl

theorem processJob_pos_eq (db : Db) (nowT : Nat) (job : TokenMetadataInfo)
    (hany : db.tokens.any (fun t => tokenMatches t job.contract job.tokenId) = true) :
    processJob db nowT job =
      match processAttrs job (jobStripped db nowT job) job.attributes with
      | .error e => .error e
      | .ok db3 => .ok (markIndexed job db3, jobRecounts db nowT job) := by
  unfold processJob
  rw [if_pos hany]
  rfl

theorem tokenMatches_map_any (l : List TokenRow) (c i : Nat) (f : TokenRow → TokenRow)
    (hf : ∀ t, tokenMatches (f t) c i = tokenMatches t c i) :
    (l.map f).any (fun t => tokenMatches t c i) = l.any (fun t => tokenMatches t c i) := by
  induction l with
  | nil => rfl
  | cons t ts ih =>
    simp only [List.map_cons, List.any_cons, hf, ih]

theorem linkFold_filter (job : TokenMetadataInfo) (R : JobAttribute → Nat)
    (p : TokenAttributeRow → Bool)
    (hp : ∀ a aid, p (mkLinkRow job a aid) = false) :
    ∀ (attrs : List JobAttribute) (l : List TokenAttributeRow),
      (linkFold job R l attrs).filter p = l.filter p := by
  intro attrs
  induction attrs with
  | nil => intro l; rfl
  | cons a rest ih =>
    intro l
    show (linkFold job R (linkStep job a (R a) l) rest).filter p = l.filter p
    rw [ih]
    unfold linkStep
    by_cases hc : linkConflict l job.contract job.tokenId (R a) = true
    · rw [if_pos hc]
    · rw [if_neg hc, List.filter_append]
      have hone : List.filter p [mkLinkRow job a (R a)] = [] := by
        simp [List.filter_cons, hp a (R a)]
      rw [hone, List.append_nil]

/-- C5: Replaying the same TokenMetadataInfo job converges for the dictionary
state: a second application of the job leaves the AttributeKey rows and the
TokenAttribute link rows exactly equal, and the Attribute rows equal in every
field except tokenCount (id, key id, value, collection, kind, key and
sampleImages, captured by attrShape).  The literal claim fails for tokenCount:
because the delete step removes the link rows and the conflict-ignoring
re-insert then counts them as newly created, a replay re-increments tokenCount
(see the separate counterexample). -/
theorem processJob_replay_converges (db : Db) (nowT nowT2 : Nat)
    (job : TokenMetadataInfo) (d1 d2 : Db) (r1 r2 : List RecountJob)
    (hwf : dbWf db)
    (h1 : processJob db nowT job = .ok (d1, r1))
    (h2 : processJob d1 nowT2 job = .ok (d2, r2)) :
    d2.attributeKeys = d1.attributeKeys ∧
    d2.tokenAttributes = d1.tokenAttributes ∧
    d2.attributes.map attrShape = d1.attributes.map attrShape := by
  by_cases hany : db.tokens.any (fun t => tokenMatches t job.contract job.tokenId) = true
  · obtain ⟨db3, hpa, hwf3, htok3, hready3, hpres1, hpres2, htA3⟩ :=
      processAttrs_spec job job.attributes (jobStripped db nowT job) (by exact hwf)
    rw [processJob_pos_eq db nowT job hany, hpa] at h1
    dsimp only at h1
    rw [Except.ok.injEq, Prod.mk.injEq] at h1
    obtain ⟨hd1, hr1⟩ := h1
    subst hd1
    have hany1 : (markIndexed job db3).tokens.any
        (fun t => tokenMatches t job.contract job.tokenId) = true := by
      show (db3.tokens.map (fun t =>
          if tokenMatches t job.contract job.tokenId && !t.metadataIndexed then
            { t with metadataIndexed := true }
          else t)).any (fun t => tokenMatches t job.contract job.tokenId) = true
      rw [tokenMatches_map_any]
      · rw [htok3]
        show (db.tokens.map (fun t =>
            if tokenMatches t job.contract job.tokenId then
              { t with name := job.name, description := job.description,
                       image := job.imageUrl, media := job.mediaUrl,
                       attributes := hstoreAttrs job.attributes, updatedAt := nowT }
            else t)).any (fun t => tokenMatches t job.contract job.tokenId) = true
        rw [tokenMatches_map_any]
        · exact hany
        · intro t
          by_cases hm : tokenMatches t job.contract job.tokenId = true
          · rw [if_pos hm]
            rfl
          · rw [if_neg hm]
      · intro t
        by_cases hm : (tokenMatches t job.contract job.tokenId && !t.metadataIndexed) = true
        · rw [if_pos hm]
          rfl
        · rw [if_neg hm]
    rw [processJob_pos_eq (markIndexed job db3) nowT2 job hany1] at h2
    have hreadyS : ∀ a ∈ job.attributes,
        attrReady (jobStripped (markIndexed job db3) nowT2 job) job a := by
      intro a ha
      exact attrReady_congr rfl rfl job a (hready3 a ha)
    obtain ⟨e3, hpa2, hkeys3, hshape3, htokE3, htAE3⟩ :=
      processAttrs_replay job job.attributes
        (jobStripped (markIndexed job db3) nowT2 job) hreadyS
    rw [hpa2] at h2
    dsimp only at h2
    rw [Except.ok.injEq, Prod.mk.injEq] at h2
    obtain ⟨hd2, hr2⟩ := h2
    subst hd2
    refine ⟨?_, ?_, ?_⟩
    · show e3.attributeKeys = db3.attributeKeys
      rw [hkeys3]
      rfl
    · show e3.tokenAttributes = db3.tokenAttributes
      rw [htAE3]
      have hR : resolveFn (jobStripped (markIndexed job db3) nowT2 job) job.collection
          = resolveFn db3 job.collection := by
        funext b
        unfold resolveFn
        rw [@resolvedAttrId_congr db3 (jobStripped (markIndexed job db3) nowT2 job) rfl rfl]
      have hTA : (jobStripped (markIndexed job db3) nowT2 job).tokenAttributes
          = (jobStripped db nowT job).tokenAttributes := by
        show db3.tokenAttributes.filter
            (fun r => !(r.contract == job.contract && r.tokenId == job.tokenId))
            = (jobStripped db nowT job).tokenAttributes
        rw [htA3, linkFold_filter]
        · show (db.tokenAttributes.filter
              (fun r => !(r.contract == job.contract && r.tokenId == job.tokenId))).filter
              (fun r => !(r.contract == job.contract && r.tokenId == job.tokenId))
              = db.tokenAttributes.filter
              (fun r => !(r.contract == job.contract && r.tokenId == job.tokenId))
          rw [List.filter_filter]
          simp only [Bool.and_self]
        · intro a2 aid
          simp [mkLinkRow]
      rw [hR, hTA]
      exact htA3.symm
    · show e3.attributes.map attrShape = db3.attributes.map attrShape
      rw [hshape3]
      rfl
  · unfold processJob at h1 h2
    rw [if_neg hany] at h1
    rw [Except.ok.injEq, Prod.mk.injEq] at h1
    obtain ⟨hd1, hr1⟩ := h1
    subst hd1
    rw [if_neg hany] at h2
    rw [Except.ok.injEq, Prod.mk.injEq] at h2
    obtain ⟨hd2, hr2⟩ := h2
    subst hd2
    exact ⟨rfl, rfl, rfl⟩

/-- Witness for C5: the example replay converges on keys, links and attribute
shapes, with the hypotheses discharged at the concrete fixtures. -/
theorem processJob_replay_converges_witness :
    dbWf exDb ∧
    (exDb2.attributeKeys = exDb1.attributeKeys ∧
     exDb2.tokenAttributes = exDb1.tokenAttributes ∧
     exDb2.attributes.map attrShape = exDb1.attributes.map attrShape) :=
  ⟨⟨by decide, by decide⟩,
   processJob_replay_converges exDb 5 6 exJob exDb1 exDb2 []
     [RecountJob.keyCount "c" "k", RecountJob.valueCount "c" "k" 7]
     ⟨by decide, by decide⟩ (by rfl) (by rfl)⟩

/-- Counterexample to the literal C5 claim: replaying the example job deletes
the link row and re-inserts it, so the conflict-free insert re-increments
tokenCount from 1 to 2 even though the link rows themselves are identical. -/
theorem processJob_replay_counterexample :
    processJob exDb 5 exJob = Except.ok (exDb1, []) ∧
    processJob exDb1 6 exJob
      = Except.ok (exDb2,
          [RecountJob.keyCount "c" "k", RecountJob.valueCount "c" "k" 7]) ∧
    exDb1.attributes.map (fun r => r.tokenCount) = [1] ∧
    exDb2.attributes.map (fun r => r.tokenCount) = [2] :=
  ⟨rfl, rfl, rfl, rfl⟩
